import Mathlib

/-!
Verification of the go-overlay service supervisor (main program in
src/main_test.go) against its natural-language specification.

The Go program is shallowly embedded: pure functions become Lean
functions, the file-system and user-database probes of the validator
become an explicit environment record of boolean oracles, Go maps
become association lists or lookup functions (iteration order of a Go
map is unspecified; the embedding fixes the association-list order),
and the two recursive loops of the program (the DFS cycle detector and
the dependency-wait polling loop) are given an explicit fuel parameter
that provably dominates their recursion depth.
-/

set_option maxRecDepth 4096

namespace GoOverlay

/-- Single quote character as a string, used to build the exact error
message texts of the Go source. -/
def quo : String := (Char.ofNat 39).toString

/-- ServiceState mirrors the Go enumeration of the same name
(src/main_test.go lines 903..914). -/
inductive ServiceState where
  | Pending
  | Starting
  | Running
  | Stopping
  | Stopped
  | Failed
deriving DecidableEq, Repr

/-- WaitAfterField supports both a global integer wait and a
per-dependency map (src/main_test.go lines 1017..1022).  The Go map
becomes an association list. -/
structure WaitAfterField where
  PerDep : List (String × Int)
  Global : Int
  IsPerDep : Bool
deriving DecidableEq, Repr

/-- GetWaitTime returns the wait time for a specific dependency
(src/main_test.go lines 1049..1058). -/
def WaitAfterField.GetWaitTime (w : WaitAfterField) (depName : String) : Int :=
  if w.IsPerDep then
    match (w.PerDep.find? (fun kv => kv.1 == depName)) with
    | some kv => kv.2
    | none => 0
  else w.Global

/-- Service mirrors the Go struct (src/main_test.go lines 1060..1072). -/
structure Service where
  Name : String
  Command : String
  LogFile : String
  PreScript : String
  PosScript : String
  User : String
  Args : List String
  DependsOn : List String
  WaitAfter : Option WaitAfterField
  Enabled : Option Bool
  Required : Bool
deriving DecidableEq, Repr

/-- Timeouts mirrors the Go struct (src/main_test.go lines 981..987). -/
structure Timeouts where
  PostScript : Int
  ServiceShutdown : Int
  GlobalShutdown : Int
  DependencyWait : Int
deriving DecidableEq, Repr

/-- Config mirrors the Go struct (src/main_test.go lines 1074..1077). -/
structure Config where
  Services : List Service
  Timeouts : Timeouts
deriving DecidableEq, Repr

/-- ValidationError mirrors the Go struct (src/main_test.go lines
1223..1227). -/
structure ValidationError where
  Field : String
  Service : String
  Message : String
deriving DecidableEq, Repr

/-- Error rendering of a single validation error (src/main_test.go
lines 1229..1234). -/
def ValidationError.errString (e : ValidationError) : String :=
  if e.Service != "" then
    "validation error in service " ++ quo ++ e.Service ++ quo ++ ", field " ++
      quo ++ e.Field ++ quo ++ ": " ++ e.Message
  else
    "validation error in field " ++ quo ++ e.Field ++ quo ++ ": " ++ e.Message

/-- Error rendering of a validation error list (src/main_test.go lines
1238..1247). -/
def validationErrorsString (es : List ValidationError) : String :=
  if es.length = 0 then "no validation errors"
  else String.intercalate "; " (es.map ValidationError.errString)

/-- Environment of external probes used by the validator.  Each field
abstracts one operating-system query performed by the Go code:
whether exec.LookPath fails for a command, whether os.Stat reports
IsNotExist for a path, whether the id command fails for a user, and
the pure filepath.Dir function of the standard library. -/
structure Env where
  lookPathErr : String → Bool
  statIsNotExist : String → Bool
  userIdErr : String → Bool
  filepathDir : String → String

/-- Character membership in a string, the strings.Contains test of
the Go code specialised to a one-character substring. -/
def stringContainsChar (s : String) (c : Char) : Bool :=
  s.toList.any (fun x => x == c)

/-- Absolute-path test of filepath.IsAbs on unix: the path starts with
a slash. -/
def isAbsPath (s : String) : Bool :=
  match s.toList with
  | [] => false
  | c :: _ => c == Char.ofNat 47

/-- Character set of the service-name regular expression
a-zA-Z0-9_- (src/main_test.go line 2123). -/
def validNameChar (c : Char) : Bool :=
  c.isAlphanum || c == Char.ofNat 95 || c == Char.ofNat 45

/-- Boolean match of the anchored regular expression used by
validateServiceName: one or more characters, each alphanumeric, dash
or underscore. -/
def validNameString (s : String) : Bool :=
  decide (0 < s.length) && s.toList.all validNameChar

/-- validateRequiredFields (src/main_test.go lines 2097..2117). -/
def validateRequiredFields (service : Service) : List ValidationError :=
  (if service.Name == "" then
    [{ Field := "name", Service := service.Name,
       Message := "service name is required" }]
   else []) ++
  (if service.Command == "" then
    [{ Field := "command", Service := service.Name,
       Message := "command is required" }]
   else [])

/-- validateServiceName (src/main_test.go lines 2119..2134). -/
def validateServiceName (service : Service) : List ValidationError :=
  if service.Name != "" then
    if !(validNameString service.Name) then
      [{ Field := "name", Service := service.Name,
         Message := "service name must contain only alphanumeric characters, dashes, and underscores" }]
    else []
  else []

/-- validateCommand (src/main_test.go lines 2136..2160). -/
def validateCommand (env : Env) (service : Service) : List ValidationError :=
  if service.Command != "" && !(stringContainsChar service.Command (Char.ofNat 32)) then
    if env.lookPathErr service.Command then
      if !(isAbsPath service.Command) then
        [{ Field := "command", Service := service.Name,
           Message := "command " ++ quo ++ service.Command ++ quo ++ " not found in PATH" }]
      else if env.statIsNotExist service.Command then
        [{ Field := "command", Service := service.Name,
           Message := "command file " ++ quo ++ service.Command ++ quo ++ " does not exist" }]
      else []
    else []
  else []

/-- validateScripts (src/main_test.go lines 2162..2186). -/
def validateScripts (env : Env) (service : Service) : List ValidationError :=
  (if service.PreScript != "" && env.statIsNotExist service.PreScript then
    [{ Field := "pre_script", Service := service.Name,
       Message := "pre-script file " ++ quo ++ service.PreScript ++ quo ++ " does not exist" }]
   else []) ++
  (if service.PosScript != "" && env.statIsNotExist service.PosScript then
    [{ Field := "pos_script", Service := service.Name,
       Message := "post-script file " ++ quo ++ service.PosScript ++ quo ++ " does not exist" }]
   else [])

/-- validateLogFile (src/main_test.go lines 2188..2203). -/
def validateLogFile (env : Env) (service : Service) : List ValidationError :=
  if service.LogFile != "" &&
      env.statIsNotExist (env.filepathDir service.LogFile) then
    [{ Field := "log_file", Service := service.Name,
       Message := "log file directory " ++ quo ++ env.filepathDir service.LogFile ++ quo ++ " does not exist" }]
  else []

/-- validateWaitAfter (src/main_test.go lines 2205..2229).  The Go
code iterates the per-dependency map and accumulates one error per
out-of-range entry; the scalar form yields at most one error. -/
def validateWaitAfter (service : Service) : List ValidationError :=
  match service.WaitAfter with
  | none => []
  | some w =>
    if w.IsPerDep then
      (w.PerDep.filter (fun kv => decide (kv.2 < 0) || decide (300 < kv.2))).map
        (fun kv =>
          { Field := "wait_after", Service := service.Name,
            Message := "wait_after for dependency " ++ quo ++ kv.1 ++ quo ++
              " must be between 0 and 300 seconds" })
    else
      if decide (w.Global < 0) || decide (300 < w.Global) then
        [{ Field := "wait_after", Service := service.Name,
           Message := "wait_after must be between 0 and 300 seconds" }]
      else []

/-- validateUser (src/main_test.go lines 2231..2245). -/
def validateUser (env : Env) (service : Service) : List ValidationError :=
  if service.User != "" && env.userIdErr service.User then
    [{ Field := "user", Service := service.Name,
       Message := "user " ++ quo ++ service.User ++ quo ++ " does not exist" }]
  else []

/-- validateService (src/main_test.go lines 2083..2095): concatenation
of the seven per-service validators in source order. -/
def validateService (env : Env) (service : Service) : List ValidationError :=
  validateRequiredFields service ++
  validateServiceName service ++
  validateCommand env service ++
  validateScripts env service ++
  validateLogFile env service ++
  validateWaitAfter service ++
  validateUser env service

/-- The service map built by validateDependencies (src/main_test.go
lines 2248..2252): a Go map filled in list order, so a later service
with the same name overwrites an earlier one. -/
def buildServiceMap (services : List Service) : String → Option Service :=
  fun n => services.reverse.find? (fun s => s.Name == n)

/-- State of the cycle-detecting DFS: the two boolean maps visited and
recursionStack of the Go code, each modelled as the list of names
currently mapped to true. -/
structure DfsState where
  visited : List String
  stack : List String
deriving DecidableEq, Repr

/-- Setting a map entry to true: membership-preserving insert. -/
def setAdd (n : String) (l : List String) : List String :=
  if l.contains n then l else n :: l

/-- Setting a map entry to false: remove every occurrence. -/
def setRemove (n : String) (l : List String) : List String :=
  l.filter (fun x => x != n)

/-- Loop body of hasCycles over the dependency list (src/main_test.go
lines 2300..2308): recurse into unvisited dependencies, report a cycle
when a dependency is on the recursion stack, and thread the mutated
maps through the iterations. -/
def hasCyclesDeps (next : String → DfsState → Bool × DfsState) :
    List String → DfsState → Bool × DfsState
  | [], st => (false, st)
  | dep :: rest, st =>
    if !(st.visited.contains dep) then
      match next dep st with
      | (true, st2) => (true, st2)
      | (false, st2) => hasCyclesDeps next rest st2
    else if st.stack.contains dep then (true, st)
    else hasCyclesDeps next rest st

/-- hasCycles (src/main_test.go lines 2291..2312) with an explicit
fuel parameter bounding the recursion depth.  The Go function marks
the node visited and grey, returns false on a name that is not a map
key, walks the dependency list, and finally clears the grey mark.
Each recursive call is made on an unvisited name, so the recursion
depth never exceeds the number of distinct dependency names plus one;
the wrapper below passes fuel strictly above that bound, making the
fuel-exhausted branch unreachable. -/
def hasCyclesF (smap : String → Option Service) :
    Nat → String → DfsState → Bool × DfsState
  | 0, _, st => (false, st)
  | fuel + 1, serviceName, st =>
    let st1 : DfsState :=
      ⟨setAdd serviceName st.visited, setAdd serviceName st.stack⟩
    match smap serviceName with
    | none => (false, st1)
    | some service =>
      match hasCyclesDeps (hasCyclesF smap fuel) service.DependsOn st1 with
      | (true, st2) => (true, st2)
      | (false, st2) => (false, ⟨st2.visited, setRemove serviceName st2.stack⟩)

/-- Total length of all dependency lists; one more than this dominates
the DFS recursion depth. -/
def totalDeps (services : List Service) : Nat :=
  (services.flatMap (fun s => s.DependsOn)).length

/-- hasCycles as called by validateDependencies (src/main_test.go line
2283): fresh empty maps, service map built from the slice. -/
def hasCycles (services : List Service) (serviceName : String) : Bool :=
  (hasCyclesF (buildServiceMap services) (totalDeps services + 2)
    serviceName ⟨[], []⟩).1

/-- Per-service part of the first validateDependencies pass
(src/main_test.go lines 2255..2278): the first missing depends_on
reference, else the first wait_after key that is not a declared
dependency.  Go iterates the wait_after map in unspecified order; the
embedding uses association-list order. -/
def depExistError (smap : String → Option Service) (s : Service) : Option String :=
  match s.DependsOn.find? (fun d => (smap d).isNone) with
  | some d =>
    some ("service " ++ quo ++ s.Name ++ quo ++
      " depends on non-existent service " ++ quo ++ d ++ quo)
  | none =>
    match s.WaitAfter with
    | none => none
    | some w =>
      if w.IsPerDep then
        match w.PerDep.find? (fun kv => !(s.DependsOn.contains kv.1)) with
        | some kv =>
          some ("service " ++ quo ++ s.Name ++ quo ++ " has wait_after for " ++
            quo ++ kv.1 ++ quo ++ " but doesn" ++ quo ++ "t depend on it")
        | none => none
      else none

/-- Circular-dependency message of validateDependencies
(src/main_test.go line 2284). -/
def circularMsg (name : String) : String :=
  "circular dependency detected involving service " ++ quo ++ name ++ quo

/-- validateDependencies (src/main_test.go lines 2247..2289): the
existence and wait_after passes return on the first violation; only
when both pass does the cycle check run, itself returning on the first
service whose DFS reports a cycle. -/
def validateDependencies (services : List Service) : Option String :=
  match services.findSome? (depExistError (buildServiceMap services)) with
  | some e => some e
  | none =>
    match services.find? (fun s => hasCycles services s.Name) with
    | some s => some (circularMsg s.Name)
    | none => none

/-- Default population of the four timeouts (src/main_test.go lines
2028..2040): a zero value is replaced by the default. -/
def applyTimeoutDefaults (t : Timeouts) : Timeouts :=
  { PostScript := if t.PostScript = 0 then 7 else t.PostScript,
    ServiceShutdown := if t.ServiceShutdown = 0 then 10 else t.ServiceShutdown,
    GlobalShutdown := if t.GlobalShutdown = 0 then 30 else t.GlobalShutdown,
    DependencyWait := if t.DependencyWait = 0 then 300 else t.DependencyWait }

/-- Per-service loop of validateConfig (src/main_test.go lines
2043..2066): accumulate the per-service validator errors, add a
duplicate-name error when the name was seen before, record the name,
and default the Enabled field to true. -/
def validateServicesLoop (env : Env) (seen : List String) :
    List Service → List ValidationError × List Service
  | [] => ([], [])
  | s :: rest =>
    let errs := validateService env s
    let dupErrs : List ValidationError :=
      if seen.contains s.Name then
        [{ Field := "name", Service := s.Name,
           Message := "duplicate service name" }]
      else []
    let s' : Service :=
      match s.Enabled with
      | none => { s with Enabled := some true }
      | some _ => s
    let tail := validateServicesLoop env (s.Name :: seen) rest
    (errs ++ dupErrs ++ tail.1, s' :: tail.2)

/-- validateConfig (src/main_test.go lines 2025..2081): defaults the
timeouts, runs the per-service loop, appends the single
validateDependencies error when present, and returns the updated
config together with the accumulated error list (empty list standing
for a nil error). -/
def validateConfig (env : Env) (config : Config) : Config × List ValidationError :=
  let t := applyTimeoutDefaults config.Timeouts
  let loopOut := validateServicesLoop env [] config.Services
  let depErrs : List ValidationError :=
    match validateDependencies loopOut.2 with
    | some m => [{ Field := "dependencies", Service := "", Message := m }]
    | none => []
  (⟨loopOut.2, t⟩, loopOut.1 ++ depErrs)

/-- Raw depends_on value as decoded from TOML (src/main_test.go lines
1132..1150): absent, a single string, an array whose items may or may
not be strings, or a value of any other type. -/
inductive RawDepends where
  | nil
  | str (s : String)
  | arr (items : List (Option String))
  | other
deriving DecidableEq, Repr

/-- Raw wait_after value as decoded from TOML (src/main_test.go lines
1112..1130): absent, an integer, a table whose values may or may not
be integers, or a value of any other type. -/
inductive RawWait where
  | nil
  | int (n : Int)
  | table (entries : List (String × Option Int))
  | other
deriving DecidableEq, Repr

/-- serviceRaw mirrors the Go struct (src/main_test.go lines
1080..1092). -/
structure ServiceRaw where
  Name : String
  Command : String
  LogFile : String
  PreScript : String
  PosScript : String
  User : String
  Args : List String
  DependsOn : RawDepends
  WaitAfter : RawWait
  Enabled : Option Bool
  Required : Bool
deriving DecidableEq, Repr

/-- configRaw mirrors the Go struct (src/main_test.go lines
1094..1097). -/
structure ConfigRaw where
  Services : List ServiceRaw
  Timeouts : Timeouts
deriving DecidableEq, Repr

/-- Conversion of the raw wait_after value inside parseConfig
(src/main_test.go lines 1112..1130). -/
def convWaitAfter : RawWait → Except String (Option WaitAfterField)
  | RawWait.nil => Except.ok none
  | RawWait.int n => Except.ok (some ⟨[], n, false⟩)
  | RawWait.table entries =>
    if entries.all (fun kv => kv.2.isSome) then
      Except.ok (some ⟨entries.map (fun kv => (kv.1, kv.2.getD 0)), 0, true⟩)
    else Except.error "wait_after map values must be integers"
  | RawWait.other =>
    Except.error "wait_after must be an integer or a map of dependency names to wait times"

/-- Conversion of the raw depends_on value inside parseConfig
(src/main_test.go lines 1132..1150). -/
def convDependsOn : RawDepends → Except String (List String)
  | RawDepends.nil => Except.ok []
  | RawDepends.str s => Except.ok [s]
  | RawDepends.arr items =>
    if items.all (fun it => it.isSome) then
      Except.ok (items.map (fun it => it.getD ""))
    else Except.error "depends_on array must contain only strings"
  | RawDepends.other =>
    Except.error "depends_on must be a string or array of strings"

/-- Per-entry loop of parseConfig (src/main_test.go lines 1106..1166):
entries with an empty name are skipped, conversion errors abort the
whole parse, and kept entries appear in input order. -/
def parseServices : List ServiceRaw → Except String (List Service)
  | [] => Except.ok []
  | sr :: rest =>
    if sr.Name == "" then parseServices rest
    else
      match convWaitAfter sr.WaitAfter with
      | Except.error e => Except.error e
      | Except.ok wa =>
        match convDependsOn sr.DependsOn with
        | Except.error e => Except.error e
        | Except.ok deps =>
          match parseServices rest with
          | Except.error e => Except.error e
          | Except.ok tail =>
            Except.ok
              ({ Name := sr.Name, Command := sr.Command, LogFile := sr.LogFile,
                 PreScript := sr.PreScript, PosScript := sr.PosScript,
                 User := sr.User, Args := sr.Args, DependsOn := deps,
                 WaitAfter := wa, Enabled := sr.Enabled,
                 Required := sr.Required } :: tail)

/-- parseConfig (src/main_test.go lines 1099..1168), taking the
already-decoded raw TOML document. -/
def parseConfig (raw : ConfigRaw) : Except String Config :=
  match parseServices raw.Services with
  | Except.error e => Except.error e
  | Except.ok svcs => Except.ok ⟨svcs, raw.Timeouts⟩

/-- Outcome of the daemon start path: either an error returned before
any service is started, or control reaching startAllServices with the
validated config, the only place where child processes are spawned. -/
inductive DaemonAction where
  | abort (msg : String)
  | runServices (cfg : Config)
deriving DecidableEq, Repr

/-- loadAndValidateConfig (src/main_test.go lines 1500..1525).  The
file open and TOML decode are abstracted as the input: none for an
open failure, some of the decode result otherwise. -/
def loadAndValidateConfig (env : Env) (configFile : String)
    (opened : Option (Except String ConfigRaw)) : Except String Config :=
  match opened with
  | none => Except.error ("error opening config file " ++ configFile)
  | some (Except.error e) =>
    Except.error ("error parsing config file " ++ configFile ++ ": " ++ e)
  | some (Except.ok raw) =>
    match parseConfig raw with
    | Except.error e =>
      Except.error ("error parsing config file " ++ configFile ++ ": " ++ e)
    | Except.ok config =>
      let v := validateConfig env config
      if v.2.length ≠ 0 then
        Except.error ("configuration validation failed: " ++
          validationErrorsString v.2)
      else Except.ok v.1

/-- loadServices (src/main_test.go lines 1490..1498): a validation or
parse error is returned as-is and startAllServices is never reached. -/
def loadServices (env : Env) (configFile : String)
    (opened : Option (Except String ConfigRaw)) : DaemonAction :=
  match loadAndValidateConfig env configFile opened with
  | Except.error e => DaemonAction.abort e
  | Except.ok cfg => DaemonAction.runServices cfg

/-- ServiceProcess mirrors the Go struct (src/main_test.go lines
1170..1180).  The OS process handle is reduced to its optional pid and
the PTY handle to a presence flag; the error is the optional message
string. -/
structure ServiceProcess where
  Name : String
  LastError : Option String
  StartTime : Nat
  Config : Service
  ProcessPid : Option Int
  HasPTY : Bool
  State : ServiceState
deriving DecidableEq, Repr

/-- SetState (src/main_test.go lines 1183..1194), without the log
line. -/
def ServiceProcess.SetState (sp : ServiceProcess) (state : ServiceState) :
    ServiceProcess :=
  { sp with State := state }

/-- GetState (src/main_test.go lines 1196..1200). -/
def ServiceProcess.GetState (sp : ServiceProcess) : ServiceState := sp.State

/-- SetError (src/main_test.go lines 1202..1213): the error is always
recorded, and a non-nil error forces the FAILED state. -/
def ServiceProcess.SetError (sp : ServiceProcess) (err : Option String) :
    ServiceProcess :=
  match err with
  | some _ => { sp with LastError := err, State := ServiceState.Failed }
  | none => { sp with LastError := err }

/-- GetPID (src/main_test.go lines 1215..1220). -/
def ServiceProcess.GetPID (sp : ServiceProcess) : Int :=
  match sp.ProcessPid with
  | some pid => pid
  | none => 0

/-- The activeServices registry: a Go map from name to the (shared,
mutable) ServiceProcess record, modelled as an association list of
record values. -/
def Registry := List (String × ServiceProcess)

/-- Go map read activeServices. -/
def lookupActive (reg : Registry) (name : String) : Option ServiceProcess :=
  (List.find? (fun p => p.1 == name) reg).map (fun p => p.2)

/-- Go map write activeServices, replacing an existing entry. -/
def regInsert (reg : Registry) (name : String) (sp : ServiceProcess) : Registry :=
  if (List.find? (fun p => p.1 == name) reg).isSome then
    List.map (fun p => if p.1 == name then (name, sp) else p) reg
  else List.append reg [(name, sp)]

/-- Go map delete activeServices. -/
def regDelete (reg : Registry) (name : String) : Registry :=
  List.filter (fun p => p.1 != name) reg

/-- addActiveService (src/main_test.go lines 1467..1474): the record
is put in STARTING state, stamped with the current time, and inserted;
the waitgroup increment is elided. -/
def addActiveService (reg : Registry) (now : Nat) (name : String)
    (serviceProc : ServiceProcess) : Registry :=
  let sp' := { serviceProc.SetState ServiceState.Starting with StartTime := now }
  regInsert reg name sp'

/-- removeActiveService (src/main_test.go lines 1476..1488): when the
name is present, the record is unconditionally set to STOPPED, its PTY
closed, and the entry deleted.  The second component is the final
value of the removed record, observing the in-place mutation the Go
code performs on the shared record; the waitgroup decrement is
elided. -/
def removeActiveService (reg : Registry) (name : String) :
    Registry × Option ServiceProcess :=
  match lookupActive reg name with
  | some serviceProc =>
    let sp' := { serviceProc.SetState ServiceState.Stopped with HasPTY := false }
    (regDelete reg name, some sp')
  | none => (reg, none)

/-- Mutation applied in the registry to the record of a named service,
modelling a write through the shared pointer held by a runner task. -/
def regModify (reg : Registry) (name : String)
    (f : ServiceProcess → ServiceProcess) : Registry :=
  List.map (fun p => if p.1 == name then (p.1, f p.2) else p) reg

/-- Deadline computation of gracefulShutdown (src/main_test.go lines
1415..1422): the timer duration in seconds before the force-kill
wave.  The Go code initialises the value to 30 seconds and, when the
registry is non-empty, assigns 30 seconds again with the comment that
the config is not accessible here; the configured global_shutdown is
never consulted. -/
def gracefulShutdownGlobalTimeout (activeCount : Nat) : Int :=
  let globalTimeout : Int := 30
  if 0 < activeCount then (30 : Int) else globalTimeout

/-- IPC command type constants (src/main_test.go lines 939..943). -/
def CmdListServices : String := "list_services"

/-- Restart command constant. -/
def CmdRestartService : String := "restart_service"

/-- Status command constant. -/
def CmdGetStatus : String := "get_status"

/-- IPCCommand mirrors the Go struct (src/main_test.go lines
946..949); the command type is its underlying string. -/
structure IPCCommand where
  CmdType : String
  ServiceName : String
deriving DecidableEq, Repr

/-- ServiceInfo mirrors the Go struct (src/main_test.go lines
952..959); the uptime duration is in seconds. -/
structure ServiceInfo where
  Name : String
  LastError : String
  Uptime : Nat
  State : ServiceState
  PID : Int
  Required : Bool
deriving DecidableEq, Repr

/-- IPCResponse mirrors the Go struct (src/main_test.go lines
962..966). -/
structure IPCResponse where
  Message : String
  Services : List ServiceInfo
  Success : Bool
deriving DecidableEq, Repr

/-- handleListServices (src/main_test.go lines 2407..2432). -/
def handleListServices (reg : Registry) (now : Nat) : IPCResponse :=
  let services := List.map (fun p =>
    ({ Name := p.1,
       LastError := (p.2.LastError).getD "",
       Uptime := now - p.2.StartTime,
       State := p.2.GetState,
       PID := p.2.GetPID,
       Required := p.2.Config.Required } : ServiceInfo)) reg
  { Message := "", Services := services, Success := true }

/-- handleGetStatus (src/main_test.go lines 2488..2512); the counts
are rendered by the caller, kept symbolic here. -/
def handleGetStatus (reg : Registry) : IPCResponse :=
  let total := reg.length
  let running := (List.filter (fun p => p.2.GetState == ServiceState.Running) reg).length
  let failed := (List.filter (fun p => p.2.GetState == ServiceState.Failed) reg).length
  { Message := "Total: " ++ toString total ++ ", Running: " ++ toString running ++
      ", Failed: " ++ toString failed,
    Services := [], Success := true }

/-- handleRestartService (src/main_test.go lines 2434..2486): an
unknown name yields a failure response and leaves the registry alone;
otherwise the record is set to STOPPING, killed, removed, and a
success response returned while the asynchronous respawn is elided. -/
def handleRestartService (reg : Registry) (serviceName : String) :
    IPCResponse × Registry :=
  match lookupActive reg serviceName with
  | none =>
    ({ Message := "Service " ++ quo ++ serviceName ++ quo ++ " not found",
       Services := [], Success := false }, reg)
  | some _ =>
    let reg' := regDelete (regModify reg serviceName
      (fun sp => { sp.SetState ServiceState.Stopping with HasPTY := false }))
      serviceName
    ({ Message := "Service " ++ quo ++ serviceName ++ quo ++ " restart initiated",
       Services := [], Success := true }, reg')

/-- Dispatch of handleIPCConnection (src/main_test.go lines
2386..2400): one decoded command produces one response. -/
def handleIPCConnection (reg : Registry) (now : Nat) (cmd : IPCCommand) :
    IPCResponse :=
  if cmd.CmdType == CmdListServices then handleListServices reg now
  else if cmd.CmdType == CmdRestartService then
    (handleRestartService reg cmd.ServiceName).1
  else if cmd.CmdType == CmdGetStatus then handleGetStatus reg
  else { Message := "Unknown command type", Services := [], Success := false }

/-- Result of one waitForDependency call, separating the three exit
paths of the Go function (ready with the completion time, cancellation
by the shutdown context, and the dependency-wait timeout logged at
src/main_test.go line 1707). -/
inductive DepWaitResult where
  | ready (t : Nat)
  | cancelled
  | timedOut
deriving DecidableEq, Repr

/-- Whether the shutdown context is done at time t. -/
def shutFired (shutdownAt : Option Nat) (t : Nat) : Bool :=
  match shutdownAt with
  | some s => decide (s ≤ t)
  | none => false

/-- Whether the started marker of a dependency reads true at time t:
the time at which the marker is set, when any, has passed. -/
def markerReached (markerAt : String → Option Nat) (dep : String) (t : Nat) : Bool :=
  match markerAt dep with
  | some m => decide (m ≤ t)
  | none => false

/-- Polling loop of waitForDependency (src/main_test.go lines
1693..1743) in a discrete-time model.  Each iteration at time t first
checks the shutdown context, then the timeout condition
since-start > dependencyWait, then reads the marker; on a set marker
it sleeps waitAfter seconds (pre-empted by shutdown), otherwise it
sleeps 2 seconds (pre-empted by shutdown) and polls again.  The start
parameter is the time captured by the time.Now call at the top of the
Go function.  Fuel bounds the iteration count; the wrapper passes
more fuel than the timeout check allows iterations. -/
def waitForDependencyF (markerAt : String → Option Nat)
    (shutdownAt : Option Nat) (depName : String) (waitAfter : Nat)
    (dependencyWait : Nat) (start : Nat) :
    Nat → Nat → DepWaitResult
  | 0, _ => DepWaitResult.timedOut
  | fuel + 1, t =>
    if shutFired shutdownAt t then DepWaitResult.cancelled
    else if decide (dependencyWait < t - start) then DepWaitResult.timedOut
    else if markerReached markerAt depName t then
      match shutdownAt with
      | some s =>
        if decide (s ≤ t + waitAfter) then DepWaitResult.cancelled
        else DepWaitResult.ready (t + waitAfter)
      | none => DepWaitResult.ready (t + waitAfter)
    else
      match shutdownAt with
      | some s =>
        if decide (s ≤ t + 2) then DepWaitResult.cancelled
        else waitForDependencyF markerAt shutdownAt depName waitAfter
          dependencyWait start fuel (t + 2)
      | none =>
        waitForDependencyF markerAt shutdownAt depName waitAfter
          dependencyWait start fuel (t + 2)

/-- waitForDependency (src/main_test.go lines 1693..1743): the loop
started at the current time, with its own fresh start stamp.  The
loop advances 2 seconds per iteration and stops once t - start
exceeds dependencyWait, so dependencyWait + 2 iterations always
suffice. -/
def waitForDependency (markerAt : String → Option Nat)
    (shutdownAt : Option Nat) (depName : String) (waitAfter : Nat)
    (dependencyWait : Nat) (now : Nat) : DepWaitResult :=
  waitForDependencyF markerAt shutdownAt depName waitAfter dependencyWait now
    (dependencyWait + 2) now

/-- Loop of waitForServiceDependencies over the dependency list
(src/main_test.go lines 1623..1632): each predecessor in turn gets a
fresh waitForDependency call at the time the previous one finished;
the overall result is the completion time on success and none when any
predecessor wait fails. -/
def waitDepsLoop (markerAt : String → Option Nat) (shutdownAt : Option Nat)
    (s : Service) (dependencyWait : Nat) :
    List String → Nat → Option Nat
  | [], t => some t
  | dep :: rest, t =>
    let waitTime : Int :=
      match s.WaitAfter with
      | some wa => wa.GetWaitTime dep
      | none => 0
    match waitForDependency markerAt shutdownAt dep waitTime.toNat
        dependencyWait t with
    | DepWaitResult.ready t' => waitDepsLoop markerAt shutdownAt s dependencyWait rest t'
    | _ => none

/-- waitForServiceDependencies (src/main_test.go lines 1614..1634). -/
def waitForServiceDependenciesGo (markerAt : String → Option Nat)
    (shutdownAt : Option Nat) (s : Service) (dependencyWait : Nat)
    (t0 : Nat) : Option Nat :=
  waitDepsLoop markerAt shutdownAt s dependencyWait s.DependsOn t0

/-- Modelled from the spec: the polling loop with the cumulative
budget the specification describes, whose timeout condition compares
the wall clock against the start of the per-starter FIRST wait call
(start0) rather than against the start of the current call. -/
def waitForDependencySpecF (markerAt : String → Option Nat)
    (shutdownAt : Option Nat) (depName : String) (waitAfter : Nat)
    (dependencyWait : Nat) (start0 : Nat) :
    Nat → Nat → DepWaitResult
  | 0, _ => DepWaitResult.timedOut
  | fuel + 1, t =>
    if shutFired shutdownAt t then DepWaitResult.cancelled
    else if decide (dependencyWait < t - start0) then DepWaitResult.timedOut
    else if markerReached markerAt depName t then
      match shutdownAt with
      | some s =>
        if decide (s ≤ t + waitAfter) then DepWaitResult.cancelled
        else DepWaitResult.ready (t + waitAfter)
      | none => DepWaitResult.ready (t + waitAfter)
    else
      match shutdownAt with
      | some s =>
        if decide (s ≤ t + 2) then DepWaitResult.cancelled
        else waitForDependencySpecF markerAt shutdownAt depName waitAfter
          dependencyWait start0 fuel (t + 2)
      | none =>
        waitForDependencySpecF markerAt shutdownAt depName waitAfter
          dependencyWait start0 fuel (t + 2)

/-- Modelled from the spec: dependency-wait chain in which every
predecessor shares the single dependency_wait budget measured from the
first call, as the specification words it. -/
def waitDepsLoopSpec (markerAt : String → Option Nat) (shutdownAt : Option Nat)
    (s : Service) (dependencyWait : Nat) (start0 : Nat) :
    List String → Nat → Option Nat
  | [], t => some t
  | dep :: rest, t =>
    let waitTime : Int :=
      match s.WaitAfter with
      | some wa => wa.GetWaitTime dep
      | none => 0
    match waitForDependencySpecF markerAt shutdownAt dep waitTime.toNat
        dependencyWait start0 (dependencyWait + 2) t with
    | DepWaitResult.ready t' =>
      waitDepsLoopSpec markerAt shutdownAt s dependencyWait start0 rest t'
    | _ => none

/-- Modelled from the spec: waitForServiceDependencies with the
whole-chain budget. -/
def waitForServiceDependenciesSpec (markerAt : String → Option Nat)
    (shutdownAt : Option Nat) (s : Service) (dependencyWait : Nat)
    (t0 : Nat) : Option Nat :=
  waitDepsLoopSpec markerAt shutdownAt s dependencyWait t0 s.DependsOn t0

/-- Events of the starter and runner tasks of one service and of one
dependent observer, from the code order of processService
(src/main_test.go lines 1569..1577) and startServiceWithPTY
(src/main_test.go lines 1789..1812): the starter launches the runner
goroutine and then sets the started marker; the runner, inside the
goroutine, starts the PTY, registers the service, and sets RUNNING;
the dependent observes the marker true inside waitForDependency. -/
inductive Ev where
  | launchRunner
  | setMarker
  | ptyStart
  | addActive
  | setRunning
  | obsMarker
deriving DecidableEq, Repr

/-- Interleavings of two sequences that preserve the inner order of
each, with a structural fuel parameter so the kernel can evaluate the
definition; the wrapper supplies sufficient fuel. -/
def mergesF : Nat → List Ev → List Ev → List (List Ev)
  | _, [], ys => [ys]
  | _, x :: xs, [] => [x :: xs]
  | 0, xs, ys => [xs ++ ys]
  | fuel + 1, x :: xs, y :: ys =>
    (mergesF fuel xs (y :: ys)).map (fun l => x :: l) ++
    (mergesF fuel (x :: xs) ys).map (fun l => y :: l)

/-- All interleavings of two sequences that preserve the inner order
of each. -/
def merges (xs ys : List Ev) : List (List Ev) :=
  mergesF (xs.length + ys.length) xs ys

/-- Program order of the runner goroutine. -/
def runnerEvents : List Ev := [Ev.ptyStart, Ev.addActive, Ev.setRunning]

/-- Valid executions of the fragment: the runner goroutine events
interleave freely with the starter tail after the launch, the
dependent observation interleaves freely with everything, and the
observation of the marker can only occur after the marker is set. -/
def validExecs : List (List Ev) :=
  (((merges [Ev.setMarker] runnerEvents).map
      (fun l => Ev.launchRunner :: l)).flatMap
    (fun tr => merges tr [Ev.obsMarker])).filter
    (fun tr => decide (tr.indexOf Ev.setMarker < tr.indexOf Ev.obsMarker))

/-- Dependency edge of the service graph: b is listed in the
depends_on of the service the map stores under a. -/
def Edge (smap : String → Option Service) (a b : String) : Prop :=
  ∃ svc, smap a = some svc ∧ b ∈ svc.DependsOn

/-- Nonempty directed path from a to b through the listed intermediate
nodes. -/
def EdgePath (smap : String → Option Service) :
    String → List String → String → Prop
  | a, [], b => Edge smap a b
  | a, c :: l, b => Edge smap a c ∧ EdgePath smap c l b

/-- The transitive depends_on relation contains a cycle. -/
def HasCycle (smap : String → Option Service) : Prop :=
  ∃ n p, EdgePath smap n p n

/-- The recursion stack read bottom-up is a path: every element has an
edge to the element pushed on top of it. -/
def ChainTo (smap : String → Option Service) : List String → Prop
  | [] => True
  | [_] => True
  | b :: a :: t => Edge smap a b ∧ ChainTo smap (a :: t)

/-- A node is black when it is visited and off the recursion stack. -/
def blackIn (st : DfsState) (x : String) : Prop :=
  x ∈ st.visited ∧ x ∉ st.stack

/-- Every black node has all its dependencies black with strictly
smaller rank: the certificate that the black subgraph is acyclic and
closed. -/
def BlackInv (smap : String → Option Service) (st : DfsState) : Prop :=
  ∃ rank : String → Nat, ∀ x svc, blackIn st x → smap x = some svc →
    ∀ d ∈ svc.DependsOn, blackIn st d ∧ rank d < rank x

/-- Names missing from the visited set, measured against a fixed list
of candidate nodes; used for the fuel bound of the DFS. -/
def unvisitedCount (allNames : List String) (visited : List String) : Nat :=
  (allNames.filter (fun d => !(visited.contains d))).length

/-- Induction statement for the DFS: with enough fuel, on a call
satisfying the entry invariants of the Go recursion, a true result
certifies a cycle, and a false result restores the recursion stack,
grows the visited set, marks the node, and preserves the black-node
ranking invariant. -/
def DfsMainProp (smap : String → Option Service) (allNames : List String)
    (fuel : Nat) : Prop :=
  ∀ name st b st', hasCyclesF smap fuel name st = (b, st') →
    unvisitedCount allNames (setAdd name st.visited) + 2 ≤ fuel →
    (∀ x ∈ st.stack, x ∈ st.visited) →
    name ∉ st.visited →
    ChainTo smap (name :: st.stack) →
    (smap name).isSome →
    BlackInv smap st →
    ((b = true → HasCycle smap) ∧
     (b = false → st'.stack = st.stack ∧
       (∀ x ∈ st.visited, x ∈ st'.visited) ∧
       name ∈ st'.visited ∧ BlackInv smap st'))

/-- Environment in which every external probe succeeds: commands
resolve, files exist, users exist. -/
def envAllOk : Env :=
  ⟨fun _ => false, fun _ => false, fun _ => false, fun _ => "/"⟩

/-- Minimal service record used by the concrete instances. -/
def plainService (name : String) (deps : List String) : Service :=
  { Name := name, Command := "/bin/true", LogFile := "", PreScript := "",
    PosScript := "", User := "", Args := [], DependsOn := deps,
    WaitAfter := none, Enabled := none, Required := false }

/-- Concrete running instance used by the FAILED-stickiness analysis. -/
def spRunning : ServiceProcess :=
  { Name := "a", LastError := none, StartTime := 0,
    Config := plainService "a" [], ProcessPid := some 42, HasPTY := true,
    State := ServiceState.Running }

/-- Config whose validated global_shutdown is 60 seconds. -/
def cfg60 : Config := ⟨[plainService "a" []], ⟨0, 0, 60, 0⟩⟩

/-- Config violating two dependency checks at once: each of its two
services names a missing dependency. -/
def cfgTwoMissing : Config :=
  ⟨[plainService "a" ["missing1"], plainService "b" ["missing2"]], ⟨0, 0, 0, 0⟩⟩

/-- Marker times of the dependency-wait scenario: predecessor b starts
at 8 s, predecessor c at 16 s. -/
def markersBC : String → Option Nat :=
  fun d => if d == "b" then some 8 else if d == "c" then some 16 else none

/-- Service depending on b then c, with no extra delays. -/
def svcBC : Service := plainService "s" ["b", "c"]

/-- Interleaving in which the dependent observes the started marker
before the runner has registered the service. -/
def trC8 : List Ev :=
  [Ev.launchRunner, Ev.setMarker, Ev.obsMarker, Ev.ptyStart, Ev.addActive,
   Ev.setRunning]

/-- Two-service cycle where service a also carries a wait_after key
that is not among its dependencies. -/
def svcsWaitCycle : List Service :=
  [{ plainService "a" ["b"] with WaitAfter := some ⟨[("x", 5)], 0, true⟩ },
   plainService "b" ["a"]]

/-- Plain two-service cycle. -/
def svcsSimpleCycle : List Service :=
  [plainService "a" ["b"], plainService "b" ["a"]]

/-- Raw config entry whose command is empty, rejected by the
validator. -/
def rawNoCommand : ServiceRaw :=
  { Name := "a", Command := "", LogFile := "", PreScript := "", PosScript := "",
    User := "", Args := [], DependsOn := RawDepends.nil, WaitAfter := RawWait.nil,
    Enabled := none, Required := false }

/-- Raw config with one nameless entry and one named entry. -/
def rawMixedNames : ConfigRaw :=
  ⟨[{ rawNoCommand with Name := "", Command := "/bin/true" },
    { rawNoCommand with Name := "b", Command := "/bin/true" }], ⟨0, 0, 0, 0⟩⟩

theorem contains_iff {l : List String} {a : String} :
    l.contains a = true ↔ a ∈ l := List.elem_iff

theorem contains_false_iff {l : List String} {a : String} :
    l.contains a = false ↔ a ∉ l := by
  constructor
  · intro h hm
    rw [contains_iff.mpr hm] at h
    cases h
  · intro h
    cases hc : l.contains a with
    | false => rfl
    | true => exact absurd (contains_iff.mp hc) h

theorem mem_setAdd {x n : String} {l : List String} :
    x ∈ setAdd n l ↔ x = n ∨ x ∈ l := by
  unfold setAdd
  split
  · next h =>
    rw [contains_iff] at h
    constructor
    · exact Or.inr
    · rintro (rfl | hx)
      · exact h
      · exact hx
  · simp [or_comm, eq_comm]

theorem setAdd_of_not_mem {n : String} {l : List String} (h : n ∉ l) :
    setAdd n l = n :: l := by
  unfold setAdd
  rw [if_neg]
  intro hc
  exact h (List.elem_iff.mp hc)

theorem setRemove_of_not_mem {n : String} {l : List String} (h : n ∉ l) :
    setRemove n l = l := by
  unfold setRemove
  apply List.filter_eq_self.mpr
  intro x hx
  simp only [bne_iff_ne, ne_eq]
  intro hxn
  exact h (hxn ▸ hx)

theorem unvisitedCount_le_of_subset {A v₁ v₂ : List String}
    (h : ∀ x ∈ v₁, x ∈ v₂) : unvisitedCount A v₂ ≤ unvisitedCount A v₁ := by
  unfold unvisitedCount
  rw [← List.countP_eq_length_filter, ← List.countP_eq_length_filter]
  apply List.countP_mono_left
  intro a _ ha
  cases hc : v₁.contains a with
  | false => rfl
  | true =>
    have hv2 : v₂.contains a = true := contains_iff.mpr (h a (contains_iff.mp hc))
    rw [hv2] at ha
    exact absurd ha (by decide)

theorem unvisitedCount_setAdd_lt {A v : List String} {a : String}
    (haA : a ∈ A) (hav : a ∉ v) :
    unvisitedCount A (setAdd a v) < unvisitedCount A v := by
  induction A with
  | nil => cases haA
  | cons x A ih =>
    by_cases hxa : x = a
    · subst hxa
      have h1 : (setAdd x v).contains x = true :=
        contains_iff.mpr (mem_setAdd.mpr (Or.inl rfl))
      have h2 : v.contains x = false := contains_false_iff.mpr hav
      have hm := @unvisitedCount_le_of_subset A v (setAdd x v)
        (fun y hy => mem_setAdd.mpr (Or.inr hy))
      unfold unvisitedCount at hm ⊢
      simp only [List.filter_cons, h1, h2, Bool.not_true, Bool.not_false]
      simp only [Bool.false_eq_true, if_false, if_true, List.length_cons]
      omega
    · have hsame : (setAdd a v).contains x = v.contains x := by
        cases hc : v.contains x with
        | true => exact contains_iff.mpr (mem_setAdd.mpr (Or.inr (contains_iff.mp hc)))
        | false =>
          cases hc2 : (setAdd a v).contains x with
          | false => rfl
          | true =>
            rcases mem_setAdd.mp (contains_iff.mp hc2) with h' | h'
            · exact absurd h' hxa
            · exact absurd h' (contains_false_iff.mp hc)
      rcases List.mem_cons.mp haA with h' | h'
      · exact absurd h'.symm hxa
      · have hlt := ih h'
        unfold unvisitedCount at hlt ⊢
        simp only [List.filter_cons, hsame]
        cases hvx : v.contains x with
        | true =>
          simp only [Bool.not_true, Bool.false_eq_true, if_false]
          exact hlt
        | false =>
          simp only [Bool.not_false, if_true, List.length_cons]
          omega

theorem blackIn_congr {st₁ st₂ : DfsState}
    (h : ∀ x, blackIn st₁ x ↔ blackIn st₂ x) {smap : String → Option Service}
    (hb : BlackInv smap st₁) : BlackInv smap st₂ := by
  obtain ⟨rank, hrank⟩ := hb
  refine ⟨rank, fun x svc hx hsvc d hd => ?_⟩
  obtain ⟨h1, h2⟩ := hrank x svc ((h x).mpr hx) hsvc d hd
  exact ⟨(h d).mp h1, h2⟩

/-- C9: validateConfig replaces every zero-valued timeout with its
default (post_script 7, service_shutdown 10, global_shutdown 30,
dependency_wait 300) and leaves nonzero values unchanged, so a zero
timeout never survives validation. -/
theorem validateConfig_zero_timeouts_defaulted (env : Env) (cfg : Config) :
    (validateConfig env cfg).1.Timeouts.PostScript =
      (if cfg.Timeouts.PostScript = 0 then 7 else cfg.Timeouts.PostScript) ∧
    (validateConfig env cfg).1.Timeouts.ServiceShutdown =
      (if cfg.Timeouts.ServiceShutdown = 0 then 10 else cfg.Timeouts.ServiceShutdown) ∧
    (validateConfig env cfg).1.Timeouts.GlobalShutdown =
      (if cfg.Timeouts.GlobalShutdown = 0 then 30 else cfg.Timeouts.GlobalShutdown) ∧
    (validateConfig env cfg).1.Timeouts.DependencyWait =
      (if cfg.Timeouts.DependencyWait = 0 then 300 else cfg.Timeouts.DependencyWait) ∧
    (validateConfig env cfg).1.Timeouts.PostScript ≠ 0 ∧
    (validateConfig env cfg).1.Timeouts.ServiceShutdown ≠ 0 ∧
    (validateConfig env cfg).1.Timeouts.GlobalShutdown ≠ 0 ∧
    (validateConfig env cfg).1.Timeouts.DependencyWait ≠ 0 := by
  have h : (validateConfig env cfg).1.Timeouts = applyTimeoutDefaults cfg.Timeouts := rfl
  rw [h]
  unfold applyTimeoutDefaults
  refine ⟨rfl, rfl, rfl, rfl, ?_, ?_, ?_, ?_⟩ <;> dsimp only <;> split <;> simp_all

/-- C2 counterexample: a configuration whose validated global_shutdown
is 60 seconds, while the force-kill deadline computed by
gracefulShutdown for a non-empty registry is the constant 30 seconds. -/
theorem gracefulShutdown_timeout_not_configured :
    (validateConfig envAllOk cfg60).1.Timeouts.GlobalShutdown = 60 ∧
    gracefulShutdownGlobalTimeout 1 = 30 ∧ (30 : Int) ≠ 60 :=
  ⟨rfl, rfl, by decide⟩

/-- C2 amended: with a non-empty registry the graceful-shutdown
deadline is always the constant 30 seconds, so it equals the
configured global_shutdown exactly when that value is 30. -/
theorem gracefulShutdown_timeout_constant (cfg : Config) (n : Nat) (h : 0 < n) :
    gracefulShutdownGlobalTimeout n = 30 ∧
    (gracefulShutdownGlobalTimeout n = cfg.Timeouts.GlobalShutdown ↔
      cfg.Timeouts.GlobalShutdown = 30) := by
  unfold gracefulShutdownGlobalTimeout
  rw [if_pos h]
  exact ⟨rfl, eq_comm⟩

/-- Witness for the amended C2 theorem at a concrete registry size. -/
theorem gracefulShutdown_timeout_constant_witness :
    0 < 1 ∧ (gracefulShutdownGlobalTimeout 1 = 30 ∧
      (gracefulShutdownGlobalTimeout 1 = cfg60.Timeouts.GlobalShutdown ↔
        cfg60.Timeouts.GlobalShutdown = 30)) :=
  ⟨by decide, gracefulShutdown_timeout_constant cfg60 1 (by decide)⟩

/-- C1 counterexample: SetError moves a running instance to FAILED,
and the subsequent removeActiveService cleanup moves that same
instance to STOPPED, so the FAILED state does not survive the
registry-removal step. -/
theorem failed_overwritten_by_cleanup :
    (spRunning.SetError (some "exit status 1")).State = ServiceState.Failed ∧
    ((removeActiveService [("a", spRunning.SetError (some "exit status 1"))] "a").2.map
      ServiceProcess.GetState) = some ServiceState.Stopped ∧
    ServiceState.Stopped ≠ ServiceState.Failed :=
  ⟨rfl, rfl, by decide⟩

/-- C1 amended: a transition into FAILED is sticky only until the
cleanup: SetError with a non-nil error always yields FAILED, but
removeActiveService unconditionally sets the removed instance to
STOPPED, whatever state it was in, including FAILED. -/
theorem setError_failed_until_cleanup
    (sp : ServiceProcess) (msg : String) (reg : Registry) (name : String)
    (sp' : ServiceProcess) (h : lookupActive reg name = some sp') :
    (sp.SetError (some msg)).State = ServiceState.Failed ∧
    (removeActiveService reg name).2.map ServiceProcess.GetState =
      some ServiceState.Stopped := by
  constructor
  · rfl
  · unfold removeActiveService
    rw [h]
    rfl

/-- Witness for the amended C1 theorem on a concrete registry. -/
theorem setError_failed_until_cleanup_witness :
    lookupActive [("a", spRunning)] "a" = some spRunning ∧
    ((spRunning.SetError (some "boom")).State = ServiceState.Failed ∧
     (removeActiveService [("a", spRunning)] "a").2.map ServiceProcess.GetState =
       some ServiceState.Stopped) :=
  ⟨rfl, setError_failed_until_cleanup spRunning "boom" [("a", spRunning)] "a"
    spRunning rfl⟩

/-- C7: a control request whose type is none of the three known verbs
receives exactly the unknown-command failure response, and a
restart_service request for a name absent from the registry receives a
failure response. -/
theorem ipc_unknown_command_and_unknown_service
    (reg : Registry) (now : Nat) (cmd : IPCCommand) (name : String)
    (h1 : cmd.CmdType ≠ CmdListServices)
    (h2 : cmd.CmdType ≠ CmdRestartService)
    (h3 : cmd.CmdType ≠ CmdGetStatus)
    (h4 : lookupActive reg name = none) :
    handleIPCConnection reg now cmd =
      { Message := "Unknown command type", Services := [], Success := false } ∧
    (handleIPCConnection reg now ⟨CmdRestartService, name⟩).Success = false := by
  constructor
  · unfold handleIPCConnection
    rw [if_neg (by simpa using h1), if_neg (by simpa using h2),
      if_neg (by simpa using h3)]
  · have hred : handleIPCConnection reg now ⟨CmdRestartService, name⟩ =
        (handleRestartService reg name).1 := rfl
    rw [hred]
    unfold handleRestartService
    rw [h4]

/-- Witness for the C7 theorem at a concrete command and registry. -/
theorem ipc_unknown_command_and_unknown_service_witness :
    (IPCCommand.mk "frobnicate" "").CmdType ≠ CmdListServices ∧
    (IPCCommand.mk "frobnicate" "").CmdType ≠ CmdRestartService ∧
    (IPCCommand.mk "frobnicate" "").CmdType ≠ CmdGetStatus ∧
    lookupActive [] "ghost" = none ∧
    (handleIPCConnection [] 0 (IPCCommand.mk "frobnicate" "") =
      { Message := "Unknown command type", Services := [], Success := false } ∧
     (handleIPCConnection [] 0 ⟨CmdRestartService, "ghost"⟩).Success = false) :=
  ⟨by decide, by decide, by decide, rfl,
    ipc_unknown_command_and_unknown_service [] 0 (IPCCommand.mk "frobnicate" "")
      "ghost" (by decide) (by decide) (by decide) rfl⟩

/-- C8 counterexample: a valid interleaving of the starter task, the
runner goroutine and a dependent observer in which the dependent
observes the started marker, and hence can unblock, strictly before
addActiveService has run; the marker is set right after the go
statement launching the runner, not after registration. -/
theorem marker_before_registration_execution :
    trC8 ∈ validExecs ∧
    trC8.indexOf Ev.obsMarker < trC8.indexOf Ev.addActive := by
  decide

/-- C8 amended: in every valid interleaving, the launch of the runner
task and the setting of the started marker precede the dependent
observation that unblocks it, but registration need not; the
happens-before edge guaranteed by the code is marker-set, established
directly after the runner goroutine is launched, not registration. -/
theorem launch_and_marker_before_unblock (tr : List Ev)
    (h : tr ∈ validExecs) :
    tr.indexOf Ev.launchRunner < tr.indexOf Ev.obsMarker ∧
    tr.indexOf Ev.setMarker < tr.indexOf Ev.obsMarker := by
  revert h
  revert tr
  decide

/-- Witness for the amended C8 theorem at a concrete interleaving. -/
theorem launch_and_marker_before_unblock_witness :
    trC8 ∈ validExecs ∧
    (trC8.indexOf Ev.launchRunner < trC8.indexOf Ev.obsMarker ∧
     trC8.indexOf Ev.setMarker < trC8.indexOf Ev.obsMarker) :=
  ⟨by decide, launch_and_marker_before_unblock trC8 (by decide)⟩

/-- C3 counterexample: with dependency_wait 10 s, predecessor b
started at 8 s and predecessor c at 16 s, the code version of the
dependency wait succeeds at 16 s, 6 s past the whole-chain budget the
specification describes, while the spec-modelled whole-chain version
times out; the per-call start stamp restarts the budget for each
predecessor. -/
theorem dependency_wait_budget_restarted :
    waitForServiceDependenciesGo markersBC none svcBC 10 0 = some 16 ∧
    waitForServiceDependenciesSpec markersBC none svcBC 10 0 = none ∧
    10 < 16 - 0 :=
  ⟨rfl, rfl, by decide⟩

/-- Unfolding equation for one iteration of the polling loop. -/
theorem waitForDependencyF_succ (markerAt : String → Option Nat)
    (shutdownAt : Option Nat) (dep : String) (w dw start fuel t : Nat) :
    waitForDependencyF markerAt shutdownAt dep w dw start (fuel + 1) t =
      (if shutFired shutdownAt t then DepWaitResult.cancelled
       else if decide (dw < t - start) then DepWaitResult.timedOut
       else if markerReached markerAt dep t then
         match shutdownAt with
         | some s =>
           if decide (s ≤ t + w) then DepWaitResult.cancelled
           else DepWaitResult.ready (t + w)
         | none => DepWaitResult.ready (t + w)
       else
         match shutdownAt with
         | some s =>
           if decide (s ≤ t + 2) then DepWaitResult.cancelled
           else waitForDependencyF markerAt shutdownAt dep w dw start fuel (t + 2)
         | none =>
           waitForDependencyF markerAt shutdownAt dep w dw start fuel (t + 2)) := rfl

/-- A dependency whose marker is already set succeeds on the first
poll of waitForDependency, whatever the start time is, because the
timeout clock starts at the call itself. -/
theorem waitForDependency_ready_marker (markerAt : String → Option Nat)
    (dep : String) (w dw start m : Nat) (hm : markerAt dep = some m)
    (hle : m ≤ start) :
    waitForDependency markerAt none dep w dw start =
      DepWaitResult.ready (start + w) := by
  unfold waitForDependency
  show waitForDependencyF markerAt none dep w dw start ((dw + 1) + 1) start =
    DepWaitResult.ready (start + w)
  rw [waitForDependencyF_succ]
  have h1 : shutFired none start = false := rfl
  have h3 : markerReached markerAt dep start = true := by
    unfold markerReached
    rw [hm]
    exact decide_eq_true hle
  rw [h1, Nat.sub_self]
  simp only [Bool.false_eq_true, if_false, h3, if_true]
  rw [if_neg (by simp)]

/-- C3 amended: the dependency_wait budget is per predecessor, not per
chain: when the marker of every predecessor of a service is already
set at the start of the dependency wait, the whole chain succeeds,
however its accumulated wait_after delays compare to dependency_wait,
because each waitForDependency call restarts the timeout clock. -/
theorem dependency_wait_chain_succeeds (markerAt : String → Option Nat)
    (s : Service) (dw t0 : Nat)
    (h : ∀ d ∈ s.DependsOn, ∃ m, markerAt d = some m ∧ m ≤ t0) :
    ∃ tEnd, t0 ≤ tEnd ∧
      waitForServiceDependenciesGo markerAt none s dw t0 = some tEnd := by
  suffices hloop : ∀ (l : List String) (t : Nat), t0 ≤ t →
      (∀ d ∈ l, ∃ m, markerAt d = some m ∧ m ≤ t0) →
      ∃ tEnd, t ≤ tEnd ∧ waitDepsLoop markerAt none s dw l t = some tEnd by
    obtain ⟨tEnd, hle, heq⟩ := hloop s.DependsOn t0 (le_refl t0) h
    exact ⟨tEnd, hle, heq⟩
  intro l
  induction l with
  | nil => exact fun t _ _ => ⟨t, le_refl t, rfl⟩
  | cons d rest ih =>
    intro t ht hall
    obtain ⟨m, hm, hm0⟩ := hall d (List.mem_cons_self d rest)
    obtain ⟨tEnd, hle, heq⟩ := ih
      (t + (match s.WaitAfter with
            | some wa => wa.GetWaitTime d
            | none => 0 : Int).toNat)
      (le_trans ht (Nat.le_add_right t _))
      (fun d' hd' => hall d' (List.mem_cons_of_mem d hd'))
    refine ⟨tEnd, le_trans (Nat.le_add_right t _) hle, ?_⟩
    have hready := waitForDependency_ready_marker markerAt d
      (match s.WaitAfter with
       | some wa => wa.GetWaitTime d
       | none => 0 : Int).toNat dw t m hm (le_trans hm0 ht)
    simp only [waitDepsLoop]
    rw [hready]
    exact heq

/-- Witness for the amended C3 theorem on a concrete marker map. -/
theorem dependency_wait_chain_succeeds_witness :
    (∀ d ∈ svcBC.DependsOn, ∃ m, markersBC d = some m ∧ m ≤ 20) ∧
    ∃ tEnd, 20 ≤ tEnd ∧
      waitForServiceDependenciesGo markersBC none svcBC 10 20 = some tEnd :=
  ⟨by decide, dependency_wait_chain_succeeds markersBC svcBC 10 20 (by decide)⟩

/-- C6: when validateConfig rejects the parsed configuration, the
daemon start path returns the wrapped validation error and never
reaches startAllServices, the only place where child processes are
spawned. -/
theorem loadServices_aborts_on_invalid_config (env : Env) (configFile : String)
    (raw : ConfigRaw) (cfg : Config)
    (hparse : parseConfig raw = Except.ok cfg)
    (hbad : (validateConfig env cfg).2 ≠ []) :
    loadServices env configFile (some (Except.ok raw)) =
      DaemonAction.abort ("configuration validation failed: " ++
        validationErrorsString (validateConfig env cfg).2) ∧
    ∀ c, loadServices env configFile (some (Except.ok raw)) ≠
      DaemonAction.runServices c := by
  have hlen : (validateConfig env cfg).2.length ≠ 0 := by
    intro h0
    exact hbad (List.length_eq_zero.mp h0)
  have habort : loadServices env configFile (some (Except.ok raw)) =
      DaemonAction.abort ("configuration validation failed: " ++
        validationErrorsString (validateConfig env cfg).2) := by
    unfold loadServices loadAndValidateConfig
    dsimp only
    rw [hparse]
    dsimp only
    rw [if_pos hlen]
  exact ⟨habort, fun c hc => by rw [habort] at hc; cases hc⟩

/-- Witness for the C6 theorem on a config whose only service has an
empty command. -/
theorem loadServices_aborts_on_invalid_config_witness :
    parseConfig ⟨[rawNoCommand], ⟨0, 0, 0, 0⟩⟩ =
      Except.ok ⟨[{ plainService "a" [] with Command := "" }], ⟨0, 0, 0, 0⟩⟩ ∧
    (validateConfig envAllOk ⟨[{ plainService "a" [] with Command := "" }],
      ⟨0, 0, 0, 0⟩⟩).2 ≠ [] ∧
    (loadServices envAllOk "/services.toml"
        (some (Except.ok ⟨[rawNoCommand], ⟨0, 0, 0, 0⟩⟩)) =
      DaemonAction.abort ("configuration validation failed: " ++
        validationErrorsString (validateConfig envAllOk
          ⟨[{ plainService "a" [] with Command := "" }], ⟨0, 0, 0, 0⟩⟩).2) ∧
     ∀ c, loadServices envAllOk "/services.toml"
        (some (Except.ok ⟨[rawNoCommand], ⟨0, 0, 0, 0⟩⟩)) ≠
       DaemonAction.runServices c) :=
  ⟨rfl, by decide,
    loadServices_aborts_on_invalid_config envAllOk "/services.toml"
      ⟨[rawNoCommand], ⟨0, 0, 0, 0⟩⟩
      ⟨[{ plainService "a" [] with Command := "" }], ⟨0, 0, 0, 0⟩⟩
      rfl (by decide)⟩

theorem mem_validateRequiredFields {e : ValidationError} {s : Service}
    (h : e ∈ validateRequiredFields s) :
    (e.Field = "name" ∧ e.Message = "service name is required" ∧ s.Name = "") ∨
    (e.Field = "command" ∧ e.Message = "command is required") := by
  unfold validateRequiredFields at h
  rw [List.mem_append] at h
  rcases h with h | h
  · split at h
    · next hname =>
      rcases List.mem_singleton.mp h with rfl
      exact Or.inl ⟨rfl, rfl, eq_of_beq hname⟩
    · cases h
  · split at h
    · rcases List.mem_singleton.mp h with rfl
      exact Or.inr ⟨rfl, rfl⟩
    · cases h

theorem mem_validateServiceName {e : ValidationError} {s : Service}
    (h : e ∈ validateServiceName s) :
    e.Field = "name" ∧
    e.Message = "service name must contain only alphanumeric characters, dashes, and underscores" := by
  unfold validateServiceName at h
  split at h
  · split at h
    · rcases List.mem_singleton.mp h with rfl
      exact ⟨rfl, rfl⟩
    · cases h
  · cases h

theorem mem_validateCommand {env : Env} {e : ValidationError} {s : Service}
    (h : e ∈ validateCommand env s) : e.Field = "command" := by
  unfold validateCommand at h
  split at h
  · split at h
    · split at h
      · rcases List.mem_singleton.mp h with rfl
        rfl
      · split at h
        · rcases List.mem_singleton.mp h with rfl
          rfl
        · cases h
    · cases h
  · cases h

theorem mem_validateScripts {env : Env} {e : ValidationError} {s : Service}
    (h : e ∈ validateScripts env s) :
    e.Field = "pre_script" ∨ e.Field = "pos_script" := by
  unfold validateScripts at h
  rw [List.mem_append] at h
  rcases h with h | h
  · split at h
    · rcases List.mem_singleton.mp h with rfl
      exact Or.inl rfl
    · cases h
  · split at h
    · rcases List.mem_singleton.mp h with rfl
      exact Or.inr rfl
    · cases h

theorem mem_validateLogFile {env : Env} {e : ValidationError} {s : Service}
    (h : e ∈ validateLogFile env s) : e.Field = "log_file" := by
  unfold validateLogFile at h
  split at h
  · rcases List.mem_singleton.mp h with rfl
    rfl
  · cases h

theorem mem_validateWaitAfter {e : ValidationError} {s : Service}
    (h : e ∈ validateWaitAfter s) : e.Field = "wait_after" := by
  unfold validateWaitAfter at h
  split at h
  · cases h
  · split at h
    · rcases List.mem_map.mp h with ⟨kv, _, rfl⟩
      rfl
    · split at h
      · rcases List.mem_singleton.mp h with rfl
        rfl
      · cases h

theorem mem_validateUser {env : Env} {e : ValidationError} {s : Service}
    (h : e ∈ validateUser env s) : e.Field = "user" := by
  unfold validateUser at h
  split at h
  · rcases List.mem_singleton.mp h with rfl
    rfl
  · cases h

/-- Case analysis for an error produced by the per-service
validators. -/
theorem validateService_cases {env : Env} {e : ValidationError} {s : Service}
    (h : e ∈ validateService env s) :
    (e.Field = "name" ∧ e.Message = "service name is required" ∧ s.Name = "") ∨
    (e.Field = "command" ∧ e.Message = "command is required") ∨
    (e.Field = "name" ∧
      e.Message = "service name must contain only alphanumeric characters, dashes, and underscores") ∨
    e.Field = "command" ∨ e.Field = "pre_script" ∨ e.Field = "pos_script" ∨
    e.Field = "log_file" ∨ e.Field = "wait_after" ∨ e.Field = "user" := by
  unfold validateService at h
  simp only [List.mem_append] at h
  rcases h with ((((((h | h) | h) | h) | h) | h) | h)
  · rcases mem_validateRequiredFields h with h' | h'
    · exact Or.inl h'
    · exact Or.inr (Or.inl h')
  · exact Or.inr (Or.inr (Or.inl (mem_validateServiceName h)))
  · exact Or.inr (Or.inr (Or.inr (Or.inl (mem_validateCommand h))))
  · rcases mem_validateScripts h with h' | h'
    · exact Or.inr (Or.inr (Or.inr (Or.inr (Or.inl h'))))
    · exact Or.inr (Or.inr (Or.inr (Or.inr (Or.inr (Or.inl h')))))
  · exact Or.inr (Or.inr (Or.inr (Or.inr (Or.inr (Or.inr (Or.inl
      (mem_validateLogFile h)))))))
  · exact Or.inr (Or.inr (Or.inr (Or.inr (Or.inr (Or.inr (Or.inr (Or.inl
      (mem_validateWaitAfter h))))))))
  · exact Or.inr (Or.inr (Or.inr (Or.inr (Or.inr (Or.inr (Or.inr (Or.inr
      (mem_validateUser h))))))))

/-- Every error of every per-service validator run reaches the
accumulated list of the loop. -/
theorem mem_loop_of_mem_validateService {env : Env} {e : ValidationError}
    {s : Service} :
    ∀ {svcs : List Service} (seen : List String), s ∈ svcs →
      e ∈ validateService env s → e ∈ (validateServicesLoop env seen svcs).1 := by
  intro svcs
  induction svcs with
  | nil => intro seen h; cases h
  | cons hd tl ih =>
    intro seen hmem he
    show e ∈ (validateServicesLoop env seen (hd :: tl)).1
    unfold validateServicesLoop
    dsimp only
    rw [List.mem_append, List.mem_append]
    rcases List.mem_cons.mp hmem with rfl | hmem'
    · exact Or.inl (Or.inl he)
    · exact Or.inr (ih (hd.Name :: seen) hmem' he)

/-- Every error in the accumulated loop list is a per-service
validator error or a duplicate-name error of one of the services. -/
theorem mem_validateServicesLoop {env : Env} {e : ValidationError} :
    ∀ {svcs : List Service} {seen : List String},
      e ∈ (validateServicesLoop env seen svcs).1 →
      (∃ s ∈ svcs, e ∈ validateService env s) ∨
      (∃ s ∈ svcs, e = { Field := "name", Service := s.Name,
                         Message := "duplicate service name" }) := by
  intro svcs
  induction svcs with
  | nil => intro seen h; cases h
  | cons hd tl ih =>
    intro seen h
    unfold validateServicesLoop at h
    dsimp only at h
    rw [List.mem_append, List.mem_append] at h
    rcases h with (h | h) | h
    · exact Or.inl ⟨hd, List.mem_cons_self hd tl, h⟩
    · split at h
      · rcases List.mem_singleton.mp h with rfl
        exact Or.inr ⟨hd, List.mem_cons_self hd tl, rfl⟩
      · cases h
    · rcases ih h with ⟨s, hs, hse⟩ | ⟨s, hs, hse⟩
      · exact Or.inl ⟨s, List.mem_cons_of_mem hd hs, hse⟩
      · exact Or.inr ⟨s, List.mem_cons_of_mem hd hs, hse⟩

/-- Unfolded form of the error list of validateConfig. -/
theorem validateConfig_snd (env : Env) (cfg : Config) :
    (validateConfig env cfg).2 =
      (validateServicesLoop env [] cfg.Services).1 ++
      (match validateDependencies (validateServicesLoop env [] cfg.Services).2 with
       | some m => [{ Field := "dependencies", Service := "", Message := m }]
       | none => []) := rfl

/-- C4 counterexample: a configuration with two missing-reference
violations, one in each service, for which validateConfig returns a
single error entry: the dependency pass stops at the first
violation. -/
theorem validateConfig_two_violations_one_error :
    ((cfgTwoMissing.Services.flatMap Service.DependsOn).filter
      (fun d => (buildServiceMap cfgTwoMissing.Services d).isNone)).length = 2 ∧
    (validateConfig envAllOk cfgTwoMissing).2.length = 1 := by
  constructor
  · rfl
  · rfl

/-- C4 amended: validateConfig accumulates the per-service checks
without short-circuiting, every error of every per-service validator
appearing in the result, but all dependency-related violations
(missing references, wait_after keys, cycles) pass through
validateDependencies, which reports only the first one: the result
never carries more than one dependencies entry. -/
theorem validateConfig_accumulation_shape (env : Env) (cfg : Config) :
    (∀ s ∈ cfg.Services, ∀ e ∈ validateService env s,
      e ∈ (validateConfig env cfg).2) ∧
    ((validateConfig env cfg).2.filter
      (fun e => e.Field == "dependencies")).length ≤ 1 := by
  constructor
  · intro s hs e he
    rw [validateConfig_snd, List.mem_append]
    exact Or.inl (mem_loop_of_mem_validateService [] hs he)
  · rw [validateConfig_snd, List.filter_append, List.length_append]
    have h1 : (List.filter (fun e => e.Field == "dependencies")
        (validateServicesLoop env [] cfg.Services).1) = [] := by
      rw [List.filter_eq_nil_iff]
      intro e he
      have hf : e.Field ≠ "dependencies" := by
        rcases mem_validateServicesLoop he with ⟨s, _, hse⟩ | ⟨s, _, rfl⟩
        · rcases validateService_cases hse with
            ⟨h', _⟩ | ⟨h', _⟩ | ⟨h', _⟩ | h' | h' | h' | h' | h' | h' <;>
            rw [h'] <;> decide
        · exact (by decide : ("name" : String) ≠ "dependencies")
      simpa using hf
    rw [h1]
    simp only [List.length_nil, Nat.zero_add]
    split
    · simp
    · simp

/-- Witness for the amended C4 theorem. -/
theorem validateConfig_accumulation_shape_witness :
    plainService "a" ["missing1"] ∈ cfgTwoMissing.Services ∧
    (∀ e ∈ validateService envAllOk (plainService "a" ["missing1"]),
      e ∈ (validateConfig envAllOk cfgTwoMissing).2) ∧
    ((validateConfig envAllOk cfgTwoMissing).2.filter
      (fun e => e.Field == "dependencies")).length ≤ 1 :=
  ⟨by decide,
   fun e he => (validateConfig_accumulation_shape envAllOk cfgTwoMissing).1
     (plainService "a" ["missing1"]) (by decide) e he,
   (validateConfig_accumulation_shape envAllOk cfgTwoMissing).2⟩

/-- Names of the parsed services: exactly the raw names that are
non-empty, in input order. -/
theorem parseServices_names :
    ∀ {l : List ServiceRaw} {svcs : List Service}, parseServices l = Except.ok svcs →
      svcs.map Service.Name = (l.map ServiceRaw.Name).filter (fun n => n != "") := by
  intro l
  induction l with
  | nil =>
    intro svcs h
    cases h
    rfl
  | cons sr rest ih =>
    intro svcs h
    unfold parseServices at h
    split at h
    · next hname =>
      have hfil : (sr.Name != "") = false := by
        rw [bne, hname]
        rfl
      rw [List.map_cons, List.filter_cons, hfil]
      simp only [Bool.false_eq_true, if_false]
      exact ih h
    · next hname =>
      have hfil : (sr.Name != "") = true := by
        rw [bne]
        cases hb : sr.Name == "" with
        | false => rfl
        | true => exact absurd hb hname
      rcases hw : convWaitAfter sr.WaitAfter with e | wa <;> rw [hw] at h
      · cases h
      rcases hd : convDependsOn sr.DependsOn with e | deps <;> rw [hd] at h
      · cases h
      rcases hr : parseServices rest with e | tail <;> rw [hr] at h
      · cases h
      cases h
      rw [List.map_cons, List.map_cons, List.filter_cons, hfil]
      simp only [if_true]
      rw [ih hr]

/-- C10: parseConfig keeps exactly the raw entries with a non-empty
name, in input order, and consequently the required-name validation
error is never produced for a configuration that came through
parseConfig, whatever the environment. -/
theorem parseConfig_filters_unnamed (raw : ConfigRaw) (cfg : Config) (env : Env)
    (h : parseConfig raw = Except.ok cfg) :
    cfg.Services.map Service.Name =
      (raw.Services.map ServiceRaw.Name).filter (fun n => n != "") ∧
    ∀ e ∈ (validateConfig env cfg).2,
      ¬ (e.Field = "name" ∧ e.Message = "service name is required") := by
  have hsv : parseServices raw.Services = Except.ok cfg.Services := by
    unfold parseConfig at h
    rcases hp : parseServices raw.Services with e | svcs <;> rw [hp] at h
    · cases h
    · cases h
      rfl
  have hnames := parseServices_names hsv
  refine ⟨hnames, ?_⟩
  have hne : ∀ s ∈ cfg.Services, s.Name ≠ "" := by
    intro s hs
    have hmem : s.Name ∈ cfg.Services.map Service.Name := List.mem_map_of_mem _ hs
    rw [hnames] at hmem
    have := List.of_mem_filter hmem
    simpa using this
  intro e he ⟨hfield, hmsg⟩
  rw [validateConfig_snd, List.mem_append] at he
  rcases he with he | he
  · rcases mem_validateServicesLoop he with ⟨s, hs, hse⟩ | ⟨s, _, rfl⟩
    · rcases validateService_cases hse with
        ⟨_, _, hempty⟩ | ⟨h', _⟩ | ⟨_, h'⟩ | h' | h' | h' | h' | h' | h'
      · exact hne s hs hempty
      · rw [hfield] at h'; exact absurd h' (by decide)
      · rw [hmsg] at h'; exact absurd h' (by decide)
      all_goals rw [hfield] at h'; exact absurd h' (by decide)
    · exact absurd hmsg
        ((by decide : ("duplicate service name" : String) ≠ "service name is required"))
  · rcases hvd : validateDependencies (validateServicesLoop env [] cfg.Services).2
      with _ | m <;> rw [hvd] at he
    · cases he
    · rcases List.mem_singleton.mp he with rfl
      exact absurd hfield
        ((by decide : ("dependencies" : String) ≠ "name"))

/-- Witness for the C10 theorem on a raw config with one nameless and
one named entry. -/
theorem parseConfig_filters_unnamed_witness :
    parseConfig rawMixedNames = Except.ok ⟨[plainService "b" []], ⟨0, 0, 0, 0⟩⟩ ∧
    ((⟨[plainService "b" []], ⟨0, 0, 0, 0⟩⟩ : Config).Services.map Service.Name =
      (rawMixedNames.Services.map ServiceRaw.Name).filter (fun n => n != "") ∧
     ∀ e ∈ (validateConfig envAllOk (⟨[plainService "b" []], ⟨0, 0, 0, 0⟩⟩ : Config)).2,
       ¬ (e.Field = "name" ∧ e.Message = "service name is required")) :=
  ⟨rfl, parseConfig_filters_unnamed rawMixedNames
    ⟨[plainService "b" []], ⟨0, 0, 0, 0⟩⟩ envAllOk rfl⟩

theorem setRemove_cons_self {n : String} {l : List String} :
    setRemove n (n :: l) = setRemove n l := by
  unfold setRemove
  rw [List.filter_cons]
  simp

theorem edgePath_append {smap : String → Option Service} :
    ∀ {p : List String} {x y z : String}, EdgePath smap x p y → Edge smap y z →
      EdgePath smap x (p ++ [y]) z := by
  intro p
  induction p with
  | nil => exact fun hxy hyz => ⟨hxy, hyz⟩
  | cons c p' ih =>
    intro x y z hp hyz
    exact ⟨hp.1, ih hp.2 hyz⟩

theorem chainTo_climb {smap : String → Option Service} :
    ∀ {t : List String} {h d : String}, ChainTo smap (h :: t) → d ∈ h :: t →
      d = h ∨ ∃ p, EdgePath smap d p h := by
  intro t
  induction t with
  | nil =>
    intro h d _ hmem
    rcases List.mem_cons.mp hmem with rfl | hmem
    · exact Or.inl rfl
    · cases hmem
  | cons a t' ih =>
    intro h d hchain hmem
    rcases List.mem_cons.mp hmem with rfl | hmem'
    · exact Or.inl rfl
    · rcases ih hchain.2 hmem' with rfl | ⟨p, hp⟩
      · exact Or.inr ⟨[], hchain.1⟩
      · exact Or.inr ⟨p ++ [a], edgePath_append hp hchain.1⟩

theorem chain_cycle {smap : String → Option Service} {t : List String}
    {h d : String} (hchain : ChainTo smap (h :: t)) (hmem : d ∈ h :: t)
    (hedge : Edge smap h d) : HasCycle smap := by
  rcases chainTo_climb hchain hmem with rfl | ⟨p, hp⟩
  · exact ⟨d, [], hedge⟩
  · exact ⟨d, p ++ [h], edgePath_append hp hedge⟩

theorem le_foldr_max (f : String → Nat) :
    ∀ {l : List String} {d : String}, d ∈ l →
      f d ≤ (l.map f).foldr Nat.max 0 := by
  intro l
  induction l with
  | nil => intro d h; cases h
  | cons x l' ih =>
    intro d h
    rcases List.mem_cons.mp h with rfl | h'
    · exact Nat.le_max_left _ _
    · exact Nat.le_trans (ih h') (Nat.le_max_right _ _)

theorem blackInv_descend {smap : String → Option Service} {st : DfsState}
    {rank : String → Nat}
    (hrank : ∀ x svc, blackIn st x → smap x = some svc →
      ∀ d ∈ svc.DependsOn, blackIn st d ∧ rank d < rank x) :
    ∀ {p : List String} {a b : String}, EdgePath smap a p b → blackIn st a →
      blackIn st b ∧ rank b < rank a := by
  intro p
  induction p with
  | nil =>
    intro a b hab ha
    obtain ⟨svc, hs, hm⟩ := hab
    exact hrank a svc ha hs b hm
  | cons c p' ih =>
    intro a b hab ha
    obtain ⟨⟨svc, hs, hm⟩, hrest⟩ := hab
    obtain ⟨hc, hlt⟩ := hrank a svc ha hs c hm
    obtain ⟨hb, hlt'⟩ := ih hrest hc
    exact ⟨hb, Nat.lt_trans hlt' hlt⟩

theorem no_cycle_of_blackInv {smap : String → Option Service} {st : DfsState}
    {n : String} {p : List String} (hinv : BlackInv smap st)
    (hblack : blackIn st n) (hpath : EdgePath smap n p n) : False := by
  obtain ⟨rank, hrank⟩ := hinv
  obtain ⟨_, hlt⟩ := blackInv_descend hrank hpath hblack
  exact Nat.lt_irrefl _ hlt

theorem edgePath_head_key {smap : String → Option Service}
    {a : String} {p : List String} {b : String} (h : EdgePath smap a p b) :
    (smap a).isSome := by
  cases p with
  | nil =>
    obtain ⟨svc, hs, _⟩ := h
    rw [hs]; rfl
  | cons c p' =>
    obtain ⟨⟨svc, hs, _⟩, _⟩ := h
    rw [hs]; rfl

theorem buildServiceMap_eq_some {svcs : List Service} {n : String} {svc : Service}
    (h : buildServiceMap svcs n = some svc) : svc ∈ svcs ∧ svc.Name = n := by
  unfold buildServiceMap at h
  have hp := List.find?_some h
  exact ⟨List.mem_reverse.mp (List.mem_of_find?_eq_some h), eq_of_beq hp⟩

theorem buildServiceMap_isSome {svcs : List Service} {s : Service}
    (h : s ∈ svcs) : (buildServiceMap svcs s.Name).isSome := by
  unfold buildServiceMap
  rw [List.find?_isSome]
  exact ⟨s, List.mem_reverse.mpr h, by simp⟩

/-- Loop invariant of the dependency walk inside hasCycles: with the
main DFS property available one fuel level down, a true result
certifies a cycle, and a false result leaves the recursion stack
unchanged, grows the visited set, keeps the black ranking invariant,
and leaves every walked dependency black. -/
theorem hasCyclesDeps_spec (smap : String → Option Service) (allNames : List String)
    (Hclosed : ∀ n svc, smap n = some svc → ∀ d ∈ svc.DependsOn, (smap d).isSome)
    (Hall : ∀ n svc, smap n = some svc → ∀ d ∈ svc.DependsOn, d ∈ allNames)
    (fuel : Nat) (IH : DfsMainProp smap allNames fuel)
    (parent : String) (svcP : Service) (hP : smap parent = some svcP)
    (origStack : List String) (hchain : ChainTo smap (parent :: origStack)) :
    ∀ (deps : List String) (v : List String) (b : Bool) (st2 : DfsState),
      hasCyclesDeps (hasCyclesF smap fuel) deps ⟨v, parent :: origStack⟩ = (b, st2) →
      (∀ d ∈ deps, d ∈ svcP.DependsOn) →
      (∀ x ∈ parent :: origStack, x ∈ v) →
      BlackInv smap ⟨v, parent :: origStack⟩ →
      (∃ v₀, (∀ x ∈ v₀, x ∈ v) ∧ unvisitedCount allNames v₀ + 1 ≤ fuel) →
      ((b = true → HasCycle smap) ∧
       (b = false → st2.stack = parent :: origStack ∧
         (∀ x ∈ v, x ∈ st2.visited) ∧
         BlackInv smap st2 ∧
         (∀ d ∈ deps, d ∈ st2.visited ∧ d ∉ st2.stack))) := by
  intro deps
  induction deps with
  | nil =>
    intro v b st2 heq _ _ hinv _
    unfold hasCyclesDeps at heq
    injection heq with hb hst
    subst hb
    subst hst
    refine ⟨(fun h => nomatch h), fun _ => ?_⟩
    refine ⟨rfl, fun x hx => hx, hinv, ?_⟩
    intro d hd
    cases hd
  | cons dep rest ihdeps =>
    intro v b st2 heq hdeps hstv hinv hfuel
    unfold hasCyclesDeps at heq
    dsimp only at heq
    by_cases hdv : dep ∈ v
    · rw [contains_iff.mpr hdv] at heq
      simp only [Bool.not_true, Bool.false_eq_true, if_false] at heq
      by_cases hds : dep ∈ parent :: origStack
      · rw [contains_iff.mpr hds] at heq
        simp only [if_true] at heq
        injection heq with hb hst
        subst hb
        subst hst
        refine ⟨fun _ => ?_, (fun h => nomatch h)⟩
        exact chain_cycle hchain hds ⟨svcP, hP, hdeps dep (List.mem_cons_self dep rest)⟩
      · rw [contains_false_iff.mpr hds] at heq
        simp only [Bool.false_eq_true, if_false] at heq
        have hrest := ihdeps v b st2 heq
          (fun d hd => hdeps d (List.mem_cons_of_mem dep hd)) hstv hinv hfuel
        refine ⟨hrest.1, fun hb => ?_⟩
        obtain ⟨h1, h2, h3, h4⟩ := hrest.2 hb
        refine ⟨h1, h2, h3, ?_⟩
        intro d hd
        rcases List.mem_cons.mp hd with rfl | hd'
        · refine ⟨h2 d hdv, ?_⟩
          rw [h1]
          exact hds
        · exact h4 d hd'
    · rw [contains_false_iff.mpr hdv] at heq
      simp only [Bool.not_false, if_true] at heq
      rcases hrec : hasCyclesF smap fuel dep ⟨v, parent :: origStack⟩ with ⟨bc, stc⟩
      rw [hrec] at heq
      obtain ⟨v₀, hv₀, hcnt⟩ := hfuel
      have hdepsP := hdeps dep (List.mem_cons_self dep rest)
      have hfuelc : unvisitedCount allNames (setAdd dep v) + 2 ≤ fuel := by
        have h1 := unvisitedCount_setAdd_lt (Hall parent svcP hP dep hdepsP) hdv
        have h2 := @unvisitedCount_le_of_subset allNames v₀ v hv₀
        omega
      have hmain := IH dep ⟨v, parent :: origStack⟩ bc stc hrec hfuelc hstv hdv
        ⟨⟨svcP, hP, hdepsP⟩, hchain⟩ (Hclosed parent svcP hP dep hdepsP) hinv
      cases bc with
      | true =>
        dsimp only at heq
        injection heq with hb hst
        subst hb
        subst hst
        exact ⟨fun _ => hmain.1 rfl, (fun h => nomatch h)⟩
      | false =>
        dsimp only at heq
        obtain ⟨hstk, hvmono, hdepvis, hinvc⟩ := hmain.2 rfl
        rcases stc with ⟨vc, sc⟩
        dsimp only at hstk hvmono hdepvis hinvc heq
        subst hstk
        have hrest := ihdeps vc b st2 heq
          (fun d hd => hdeps d (List.mem_cons_of_mem dep hd))
          (fun x hx => hvmono x (hstv x hx)) hinvc
          ⟨v₀, fun x hx => hvmono x (hv₀ x hx), hcnt⟩
        refine ⟨hrest.1, fun hb => ?_⟩
        obtain ⟨h1, h2, h3, h4⟩ := hrest.2 hb
        refine ⟨h1, fun x hx => h2 x (hvmono x hx), h3, ?_⟩
        intro d hd
        rcases List.mem_cons.mp hd with rfl | hd'
        · refine ⟨h2 d hdepvis, ?_⟩
          rw [h1]
          exact fun hc => hdv (hstv d hc)
        · exact h4 d hd'

/-- Main correctness property of the embedded DFS, for every fuel
value: enough fuel makes the fuel-exhausted branch unreachable, a true
result certifies a cycle, and a false result restores the stack, grows
the visited set, and maintains the black ranking invariant. -/
theorem hasCyclesF_spec (smap : String → Option Service) (allNames : List String)
    (Hclosed : ∀ n svc, smap n = some svc → ∀ d ∈ svc.DependsOn, (smap d).isSome)
    (Hall : ∀ n svc, smap n = some svc → ∀ d ∈ svc.DependsOn, d ∈ allNames) :
    ∀ fuel, DfsMainProp smap allNames fuel := by
  intro fuel
  induction fuel with
  | zero =>
    intro name st b st' _ hfuel _ _ _ _ _
    exfalso
    omega
  | succ fuel ih =>
    intro name st b st' heq hfuel hsv hnv hchain hkey hinv
    obtain ⟨svc, hsvc⟩ := Option.isSome_iff_exists.mp hkey
    have hnstack : name ∉ st.stack := fun hc => hnv (hsv name hc)
    have hstack1 : setAdd name st.stack = name :: st.stack := setAdd_of_not_mem hnstack
    unfold hasCyclesF at heq
    rw [hsvc] at heq
    dsimp only at heq
    rw [hstack1] at heq
    rcases hLoop : hasCyclesDeps (hasCyclesF smap fuel) svc.DependsOn
      ⟨setAdd name st.visited, name :: st.stack⟩ with ⟨bd, std⟩
    rw [hLoop] at heq
    have hv : ∀ x ∈ name :: st.stack, x ∈ setAdd name st.visited := by
      intro x hx
      rcases List.mem_cons.mp hx with rfl | hx'
      · exact mem_setAdd.mpr (Or.inl rfl)
      · exact mem_setAdd.mpr (Or.inr (hsv x hx'))
    have hinv1 : BlackInv smap ⟨setAdd name st.visited, name :: st.stack⟩ := by
      apply @blackIn_congr st ⟨setAdd name st.visited, name :: st.stack⟩ ?_ smap hinv
      intro x
      constructor
      · rintro ⟨hxv, hxs⟩
        have hxn : x ≠ name := fun hx => hnv (hx ▸ hxv)
        exact ⟨mem_setAdd.mpr (Or.inr hxv),
          fun hc => (List.mem_cons.mp hc).elim hxn hxs⟩
      · rintro ⟨hxv, hxs⟩
        have hxn : x ≠ name :=
          fun hx => hxs (hx ▸ List.mem_cons_self name st.stack)
        rcases mem_setAdd.mp hxv with rfl | hxv'
        · exact absurd rfl hxn
        · exact ⟨hxv', fun hc => hxs (List.mem_cons_of_mem name hc)⟩
    have hLoopSpec := hasCyclesDeps_spec smap allNames Hclosed Hall fuel ih name svc
      hsvc st.stack hchain svc.DependsOn (setAdd name st.visited) bd std hLoop
      (fun d hd => hd) hv hinv1
      ⟨setAdd name st.visited, fun x hx => hx, by omega⟩
    cases bd with
    | true =>
      dsimp only at heq
      injection heq with hb hst
      subst hb
      subst hst
      exact ⟨fun _ => hLoopSpec.1 rfl, (fun h => nomatch h)⟩
    | false =>
      dsimp only at heq
      injection heq with hb hst
      subst hb
      subst hst
      obtain ⟨hstk, hvis, hinv2, hdeps⟩ := hLoopSpec.2 rfl
      have hnamestack : name ∈ std.stack := by
        rw [hstk]
        exact List.mem_cons_self name st.stack
      have hnamev : name ∈ std.visited := hvis name (mem_setAdd.mpr (Or.inl rfl))
      refine ⟨(fun h => nomatch h), fun _ => ?_⟩
      have hsr : setRemove name std.stack = st.stack := by
        rw [hstk, setRemove_cons_self, setRemove_of_not_mem hnstack]
      refine ⟨hsr, fun x hx => hvis x (mem_setAdd.mpr (Or.inr hx)), hnamev, ?_⟩
      show BlackInv smap ⟨std.visited, setRemove name std.stack⟩
      rw [hsr]
      obtain ⟨rank, hrank⟩ := hinv2
      refine ⟨fun x => if x = name then
        ((svc.DependsOn.map rank).foldr Nat.max 0) + 1 else rank x, ?_⟩
      intro x svcx hx hsvcx d hd
      obtain ⟨hxv, hxs⟩ := hx
      by_cases hxn : x = name
      · subst hxn
        have hsvceq : svcx = svc := by
          rw [hsvc] at hsvcx
          injection hsvcx with h
          exact h.symm
        subst hsvceq
        obtain ⟨hdv, hdns⟩ := hdeps d hd
        have hdn : d ≠ x := fun hdd => hdns (hdd ▸ hnamestack)
        have hdnotst : d ∉ st.stack := fun hc => hdns (by
          rw [hstk]
          exact List.mem_cons_of_mem x hc)
        refine ⟨⟨hdv, hdnotst⟩, ?_⟩
        simpa [hdn] using Nat.lt_succ_of_le (le_foldr_max rank hd)
      · have hxblack : blackIn std x := by
          refine ⟨hxv, ?_⟩
          rw [hstk]
          exact fun hc => (List.mem_cons.mp hc).elim hxn hxs
        obtain ⟨⟨hdv, hdns⟩, hlt⟩ := hrank x svcx hxblack hsvcx d hd
        have hdn : d ≠ name := fun hdd => hdns (hdd ▸ hnamestack)
        have hdnotst : d ∉ st.stack := fun hc => hdns (by
          rw [hstk]
          exact List.mem_cons_of_mem name hc)
        refine ⟨⟨hdv, hdnotst⟩, ?_⟩
        simpa [hdn, hxn] using hlt

theorem buildServiceMap_closed {svcs : List Service}
    (hex : ∀ s ∈ svcs, ∀ d ∈ s.DependsOn, (buildServiceMap svcs d).isSome) :
    ∀ n svc, buildServiceMap svcs n = some svc →
      ∀ d ∈ svc.DependsOn, (buildServiceMap svcs d).isSome := by
  intro n svc hsome d hd
  obtain ⟨hmem, _⟩ := buildServiceMap_eq_some hsome
  exact hex svc hmem d hd

theorem buildServiceMap_all {svcs : List Service} :
    ∀ n svc, buildServiceMap svcs n = some svc →
      ∀ d ∈ svc.DependsOn, d ∈ svcs.flatMap (fun s => s.DependsOn) := by
  intro n svc hsome d hd
  obtain ⟨hmem, _⟩ := buildServiceMap_eq_some hsome
  exact List.mem_flatMap.mpr ⟨svc, hmem, hd⟩

/-- Soundness of the embedded DFS entry point: a true answer implies a
cycle in the dependency relation. -/
theorem hasCycles_sound (svcs : List Service)
    (hex : ∀ s ∈ svcs, ∀ d ∈ s.DependsOn, (buildServiceMap svcs d).isSome)
    (name : String) (hkey : (buildServiceMap svcs name).isSome)
    (h : hasCycles svcs name = true) : HasCycle (buildServiceMap svcs) := by
  unfold hasCycles at h
  rcases heq : hasCyclesF (buildServiceMap svcs) (totalDeps svcs + 2) name
    ⟨[], []⟩ with ⟨b, st'⟩
  rw [heq] at h
  dsimp only at h
  have hfuel : unvisitedCount (svcs.flatMap (fun s => s.DependsOn))
      (setAdd name []) + 2 ≤ totalDeps svcs + 2 := by
    have hle := List.length_filter_le
      (fun d => !((setAdd name ([] : List String)).contains d))
      (svcs.flatMap (fun s => s.DependsOn))
    unfold unvisitedCount totalDeps
    omega
  exact (hasCyclesF_spec (buildServiceMap svcs)
    (svcs.flatMap (fun s => s.DependsOn)) (buildServiceMap_closed hex)
    buildServiceMap_all (totalDeps svcs + 2) name ⟨[], []⟩ b st' heq hfuel
    (fun x hx => absurd hx (List.not_mem_nil x)) (List.not_mem_nil name)
    True.intro hkey
    ⟨fun _ => 0, fun x svc hx => absurd hx.1 (List.not_mem_nil x)⟩).1 h

/-- Completeness of the embedded DFS entry point: a service name lying
on a cycle makes hasCycles answer true. -/
theorem hasCycles_complete (svcs : List Service)
    (hex : ∀ s ∈ svcs, ∀ d ∈ s.DependsOn, (buildServiceMap svcs d).isSome)
    {n : String} {p : List String}
    (hpath : EdgePath (buildServiceMap svcs) n p n) : hasCycles svcs n = true := by
  cases hb : hasCycles svcs n with
  | true => rfl
  | false =>
    exfalso
    unfold hasCycles at hb
    rcases heq : hasCyclesF (buildServiceMap svcs) (totalDeps svcs + 2) n
      ⟨[], []⟩ with ⟨b, st'⟩
    rw [heq] at hb
    dsimp only at hb
    subst hb
    have hfuel : unvisitedCount (svcs.flatMap (fun s => s.DependsOn))
        (setAdd n []) + 2 ≤ totalDeps svcs + 2 := by
      have hle := List.length_filter_le
        (fun d => !((setAdd n ([] : List String)).contains d))
        (svcs.flatMap (fun s => s.DependsOn))
      unfold unvisitedCount totalDeps
      omega
    obtain ⟨hstk, _, hnamemem, hinv⟩ := (hasCyclesF_spec (buildServiceMap svcs)
      (svcs.flatMap (fun s => s.DependsOn)) (buildServiceMap_closed hex)
      buildServiceMap_all (totalDeps svcs + 2) n ⟨[], []⟩ false st' heq hfuel
      (fun x hx => absurd hx (List.not_mem_nil x)) (List.not_mem_nil n)
      True.intro (edgePath_head_key hpath)
      ⟨fun _ => 0, fun x svc hx => absurd hx.1 (List.not_mem_nil x)⟩).2 rfl
    have hblack : blackIn st' n := by
      refine ⟨hnamemem, ?_⟩
      rw [hstk]
      exact List.not_mem_nil n
    exact no_cycle_of_blackInv hinv hblack hpath

/-- When all depends_on references resolve and all wait_after keys are
declared dependencies, the first validateDependencies pass reports
nothing for a service. -/
theorem depExistError_eq_none {svcs : List Service} {s : Service}
    (hex : ∀ d ∈ s.DependsOn, (buildServiceMap svcs d).isSome)
    (hwa : ∀ w, s.WaitAfter = some w → w.IsPerDep = true →
      ∀ kv ∈ w.PerDep, kv.1 ∈ s.DependsOn) :
    depExistError (buildServiceMap svcs) s = none := by
  unfold depExistError
  have h1 : s.DependsOn.find? (fun d => (buildServiceMap svcs d).isNone) = none := by
    rw [List.find?_eq_none]
    intro d hd hno
    have hs := hex d hd
    rw [Option.isNone_iff_eq_none.mp hno] at hs
    cases hs
  rw [h1]
  cases hW : s.WaitAfter with
  | none => rfl
  | some w =>
    dsimp only
    cases hip : w.IsPerDep with
    | false => rw [if_neg (by decide : ¬ (false = true))]
    | true =>
      have h2 : w.PerDep.find? (fun kv => !(s.DependsOn.contains kv.1)) = none := by
        rw [List.find?_eq_none]
        intro kv hkv hcon
        rw [contains_iff.mpr (hwa w hW hip kv hkv)] at hcon
        exact absurd hcon (by decide)
      rw [if_pos (rfl : (true = true)), h2]

/-- C5 counterexample: both depends_on references of this two-service
config resolve and the config has a dependency cycle, yet
validateDependencies does not report a circular-dependency error,
because the wait_after check of service a short-circuits first. -/
theorem waitAfter_violation_masks_cycle :
    (∀ s ∈ svcsWaitCycle, ∀ d ∈ s.DependsOn,
      (buildServiceMap svcsWaitCycle d).isSome) ∧
    HasCycle (buildServiceMap svcsWaitCycle) ∧
    ¬ (∃ s ∈ svcsWaitCycle,
        validateDependencies svcsWaitCycle = some (circularMsg s.Name)) := by
  refine ⟨by decide, ⟨"a", ["b"], ⟨?_, ?_⟩⟩, by decide⟩
  · exact ⟨{ plainService "a" ["b"] with WaitAfter := some ⟨[("x", 5)], 0, true⟩ },
      rfl, by decide⟩
  · exact ⟨plainService "b" ["a"], rfl, by decide⟩

/-- C5 amended: for configurations in which every depends_on reference
resolves and every per-dependency wait_after key is a declared
dependency, validateDependencies reports a circular-dependency error
if and only if the transitive depends_on relation contains a cycle. -/
theorem validateDependencies_cycle_iff (svcs : List Service)
    (hex : ∀ s ∈ svcs, ∀ d ∈ s.DependsOn, (buildServiceMap svcs d).isSome)
    (hwa : ∀ s ∈ svcs, ∀ w, s.WaitAfter = some w → w.IsPerDep = true →
      ∀ kv ∈ w.PerDep, kv.1 ∈ s.DependsOn) :
    (∃ s ∈ svcs, validateDependencies svcs = some (circularMsg s.Name)) ↔
    HasCycle (buildServiceMap svcs) := by
  have hphase1 : svcs.findSome? (depExistError (buildServiceMap svcs)) = none := by
    rw [List.findSome?_eq_none_iff]
    intro s hs
    exact depExistError_eq_none (hex s hs) (hwa s hs)
  constructor
  · rintro ⟨s, hs, heq⟩
    unfold validateDependencies at heq
    rw [hphase1] at heq
    dsimp only at heq
    rcases hfind : svcs.find? (fun s => hasCycles svcs s.Name) with _ | s₀ <;>
      rw [hfind] at heq
    · cases heq
    · have hc := List.find?_some hfind
      exact hasCycles_sound svcs hex s₀.Name
        (buildServiceMap_isSome (List.mem_of_find?_eq_some hfind)) hc
  · rintro ⟨n, p, hpath⟩
    obtain ⟨svcN, hsvcN⟩ := Option.isSome_iff_exists.mp (edgePath_head_key hpath)
    obtain ⟨hmemN, hnameN⟩ := buildServiceMap_eq_some hsvcN
    have hcomp : hasCycles svcs n = true := hasCycles_complete svcs hex hpath
    have hfindSome : (svcs.find? (fun s => hasCycles svcs s.Name)).isSome :=
      List.find?_isSome.mpr ⟨svcN, hmemN, by rw [hnameN]; exact hcomp⟩
    obtain ⟨s₀, hfind⟩ := Option.isSome_iff_exists.mp hfindSome
    refine ⟨s₀, List.mem_of_find?_eq_some hfind, ?_⟩
    unfold validateDependencies
    rw [hphase1]
    dsimp only
    rw [hfind]

/-- Witness for the amended C5 theorem on a plain two-service cycle. -/
theorem validateDependencies_cycle_iff_witness :
    (∀ s ∈ svcsSimpleCycle, ∀ d ∈ s.DependsOn,
      (buildServiceMap svcsSimpleCycle d).isSome) ∧
    (∀ s ∈ svcsSimpleCycle, ∀ w, s.WaitAfter = some w → w.IsPerDep = true →
      ∀ kv ∈ w.PerDep, kv.1 ∈ s.DependsOn) ∧
    ((∃ s ∈ svcsSimpleCycle,
        validateDependencies svcsSimpleCycle = some (circularMsg s.Name)) ↔
      HasCycle (buildServiceMap svcsSimpleCycle)) :=
  by
  have hwa : ∀ s ∈ svcsSimpleCycle, ∀ w, s.WaitAfter = some w →
      w.IsPerDep = true → ∀ kv ∈ w.PerDep, kv.1 ∈ s.DependsOn := by
    intro s hs
    rcases List.mem_cons.mp hs with rfl | hs2
    · intro w hw
      cases hw
    · rcases List.mem_cons.mp hs2 with rfl | hs3
      · intro w hw
        cases hw
      · cases hs3
  exact ⟨by decide, hwa,
    validateDependencies_cycle_iff svcsSimpleCycle (by decide) hwa⟩

end GoOverlay
